import Mathlib

/-!
Shallow embedding of the `nh-language-server` core (Rust sources under
`server/src/`): the project store (`project.rs`), the cross-reference
validation engine (`ship_log.rs`) and the validator orchestrator
(`validation.rs`).

Modelling conventions:
  - Rust `String` is Lean `String`; `u32`/`i32` are `Nat`/`Int`.
  - The external XML parser (`roxmltree`) and JSON parser (`serde_json`)
    are black boxes per the spec; a file's content is carried as the
    parser's output (a parse tree, or `none` on parse failure).
  - `f32` payloads (entry positions) are only copied, never computed
    with; they are modelled as integers.
  - `HashMap<String, V>` is modelled as an association list with
    overwrite-on-insert semantics (`SMap`).
  - `Vec::push` accumulation through `&mut` parameters is modelled by
    functions that take the accumulator and return the extended list.
-/

/-- LSP position (line/character), `lsp_types::Position`. -/
structure LspPos where
  line : Nat
  character : Nat
deriving DecidableEq, Repr

/-- LSP range, `lsp_types::Range`. -/
structure LspRange where
  start : LspPos
  stop : LspPos
deriving DecidableEq, Repr

/-- A document URI, `lsp_types::Url`; modelled as its string form. -/
abbrev Url := String

/-- The `lsp_types::VersionedTextDocumentIdentifier` pair. -/
structure VersionedTextDocumentIdentifier where
  uri : Url
  version : Int
deriving DecidableEq, Repr

/-- An LSP diagnostic, `lsp_types::Diagnostic`; the always-`None` fields
(`code_description`, `related_information`, `tags`, `data`) are omitted.
Severity is the numeric LSP severity (`ERROR` = 1). -/
structure Diagnostic where
  range : LspRange
  severity : Option Nat
  code : Option String
  source : Option String
  message : String
deriving DecidableEq, Repr

/-- A 1-based row/column text position as produced by `roxmltree`
(`roxmltree::TextPos`). -/
structure TextPos where
  row : Nat
  col : Nat
deriving DecidableEq, Repr

/-- From `utils.rs`: `xml_range_to_diag_range` converts 1-based XML text
positions to 0-based LSP positions (`row - 1`, `col - 1`). -/
def xmlRangeToDiagRange (startPos endPos : TextPos) : LspRange :=
  ⟨⟨startPos.row - 1, startPos.col - 1⟩, ⟨endPos.row - 1, endPos.col - 1⟩⟩

/-- An XML element node as returned by the black-box `roxmltree` parser:
tag name, source positions, its text content (`Node::text`), and its
element children in document order. -/
inductive XmlNode where
  | mk (name : String) (startPos endPos : TextPos) (text : Option String)
      (children : List XmlNode)

/-- Tag name of an XML node. -/
def XmlNode.name : XmlNode → String
  | .mk n _ _ _ _ => n

/-- Start position of an XML node. -/
def XmlNode.startPos : XmlNode → TextPos
  | .mk _ s _ _ _ => s

/-- End position of an XML node. -/
def XmlNode.endPos : XmlNode → TextPos
  | .mk _ _ e _ _ => e

/-- Text content of an XML node (`Node::text`). -/
def XmlNode.text : XmlNode → Option String
  | .mk _ _ _ t _ => t

/-- Element children of an XML node. -/
def XmlNode.children : XmlNode → List XmlNode
  | .mk _ _ _ _ c => c

mutual

/-- All descendants of a node (the node itself first, then its subtrees
in document order), mirroring `roxmltree`'s `descendants()`. -/
def XmlNode.descendants : XmlNode → List XmlNode
  | .mk n s e t c => .mk n s e t c :: XmlNode.descendantsList c

/-- Descendants of a forest of nodes, in document order. -/
def XmlNode.descendantsList : List XmlNode → List XmlNode
  | [] => []
  | c :: cs => c.descendants ++ XmlNode.descendantsList cs

end

/-- A generic JSON value as returned by the black-box `serde_json`
parser (`serde_json::Value`); numeric payloads are modelled as integers. -/
inductive Json where
  | null
  | bool (b : Bool)
  | num (n : Int)
  | str (s : String)
  | arr (elems : List Json)
  | obj (members : List (String × Json))

/-- Object-member lookup, `Value::get` (returns `None` on non-objects). -/
def Json.get : Json → String → Option Json
  | .obj members, key => (members.find? (fun m => m.fst == key)).map (·.snd)
  | _, _ => none

/-- The `Value::as_array` accessor. -/
def Json.asArray : Json → Option (List Json)
  | .arr elems => some elems
  | _ => none

/-- The `Value::as_str` accessor. -/
def Json.asStr : Json → Option String
  | .str s => some s
  | _ => none

/-- The `ShipLogFile` alias from `ship_log.rs`
(`type ShipLogFile = VersionedTextDocumentIdentifier`). -/
abbrev ShipLogFile := VersionedTextDocumentIdentifier

/-- An identifier occurrence (`ship_log.rs` `struct ID`): string value,
owning file, and the source range it was found at. -/
structure ID where
  value : String
  source_file : ShipLogFile
  range : LspRange
deriving DecidableEq, Repr

/-- The `ID::new` constructor: takes the node's text (empty string when
absent) and converts the node's XML range to a diagnostic range. -/
def ID.new (node : XmlNode) (logFile : ShipLogFile) : ID :=
  { value := node.text.getD ""
    source_file := logFile
    range := xmlRangeToDiagRange node.startPos node.endPos }

/-- The `IdSet` alias (`type IdSet = Vec<ID>`). -/
abbrev IdSet := List ID

/-- The `Vector2` alias (`type Vector2 = (f32, f32)`); float payloads
are modelled as integers, they are never computed with. -/
abbrev Vector2 := Int × Int

/-- One derived ship-log entry (`ship_log.rs` `struct ShipLogEntry`). -/
structure ShipLogEntry where
  id : String
  astro_object : String
  position : Option Vector2
  name : String
  parent : Option String
  is_curiosity : Bool
  sources : List String
  curiosity : Option String
deriving DecidableEq, Repr

/-- The `ShipLogEntry::default()` value (all fields empty/none/false). -/
def ShipLogEntry.init : ShipLogEntry :=
  { id := "", astro_object := "", position := none, name := ""
    parent := none, is_curiosity := false, sources := [], curiosity := none }

/-- Model of `std::collections::HashMap<String, A>` as an association
list with overwrite-on-insert; lookup returns the unique binding. -/
abbrev SMap (A : Type) : Type := List (String × A)

/-- The empty map (`HashMap::new` / `Default`). -/
def SMap.empty {A : Type} : SMap A := []

/-- The `HashMap::insert` operation: overwrite the existing binding in
place, or append a new one. -/
def SMap.insert {A : Type} : SMap A → String → A → SMap A
  | [], k, v => [(k, v)]
  | (a, b) :: t, k, v =>
    if a = k then (a, v) :: t else (a, b) :: SMap.insert t k v

/-- The `HashMap::get` operation (first binding with the key). -/
def SMap.get? {A : Type} : SMap A → String → Option A
  | [], _ => none
  | (a, b) :: t, k => if a = k then some b else SMap.get? t k

/-- The `HashMap::extend` operation: insert every pair in order,
overwriting existing bindings. -/
def SMap.extendList {A : Type} (m : SMap A) (l : List (String × A)) : SMap A :=
  l.foldl (fun acc kv => acc.insert kv.fst kv.snd) m

/-- The `entry(k).or_insert_with(Vec::new).push(v)` idiom from
`parse_planet`: append `v` to the vector stored at `k`, creating it
if absent. -/
def SMap.pushAt (m : SMap (List String)) (k : String) (v : String) : SMap (List String) :=
  match m.get? k with
  | some l => m.insert k (l ++ [v])
  | none => m.insert k [v]

/-- The cross-reference engine's state (`struct ShipLogContext`). -/
structure ShipLogContext where
  astro_object_ids : IdSet
  entry_ids : IdSet
  entries : SMap ShipLogEntry
  position_map : SMap Vector2
  fact_ids : IdSet
  system_to_relative_path : SMap (List String)
  relative_to_astro_object : SMap String
  curiosity_references : IdSet
  source_id_references : IdSet

/-- The `ShipLogContext::default()` value: all registries empty. -/
def ShipLogContext.init : ShipLogContext :=
  { astro_object_ids := [], entry_ids := [], entries := []
    position_map := [], fact_ids := [], system_to_relative_path := []
    relative_to_astro_object := [], curiosity_references := []
    source_id_references := [] }

/-- The `RumorFact`/`ExploreFact` arm's effect on the context: push the
fact's `ID` child (when present) onto `fact_ids`, and its `SourceID`
child (when present) onto `source_id_references`. -/
def ShipLogContext.parseFactNode (logFile : ShipLogFile) (node : XmlNode)
    (ctx : ShipLogContext) : ShipLogContext :=
  let ctx :=
    match node.children.find? (fun n => n.name == "ID") with
    | some idNode =>
      { ctx with fact_ids := ctx.fact_ids ++ [ID.new idNode logFile] }
    | none => ctx
  match node.children.find? (fun n => n.name == "SourceID") with
  | some srcNode =>
    { ctx with source_id_references :=
        ctx.source_id_references ++ [ID.new srcNode logFile] }
  | none => ctx

/-- The `RumorFact`/`ExploreFact` arm's effect on the entry being built:
append the `SourceID` child's text (when present) to `sources`. -/
def ShipLogContext.factSources (node : XmlNode) (entry : ShipLogEntry) :
    ShipLogEntry :=
  match node.children.find? (fun n => n.name == "SourceID") with
  | some srcNode => { entry with sources := entry.sources ++ [srcNode.text.getD ""] }
  | none => entry

mutual

/-- The `ShipLogContext::parse_entry` walk: scan the entry element's
children in order, collecting ids/references into the context and
building the local `ShipLogEntry`; afterwards, if the entry's id is
non-empty, look up its position, default its name to `UNNAMED`, and
insert it into the entry map (overwriting an earlier entry of that id). -/
def ShipLogContext.parseEntry (logFile : ShipLogFile) (aoId : String)
    (parent : Option String) (ctx : ShipLogContext) : XmlNode → ShipLogContext
  | .mk _ _ _ _ children =>
    let s := ShipLogContext.parseEntryChildren logFile aoId children
      (ctx, { ShipLogEntry.init with astro_object := aoId, parent := parent })
    let ctx := s.fst
    let entry := s.snd
    if entry.id = "" then ctx
    else
      let entry := { entry with position := ctx.position_map.get? entry.id }
      let entry :=
        if entry.name = "" then { entry with name := "UNNAMED" } else entry
      { ctx with entries := ctx.entries.insert entry.id entry }

/-- The body of `parse_entry`'s `for` loop over the element children,
threading the mutated context and the partially built entry. -/
def ShipLogContext.parseEntryChildren (logFile : ShipLogFile) (aoId : String) :
    List XmlNode → ShipLogContext × ShipLogEntry → ShipLogContext × ShipLogEntry
  | [], s => s
  | node :: rest, (ctx, entry) =>
    let s :=
      match node.name with
      | "ID" =>
        ({ ctx with entry_ids := ctx.entry_ids ++ [ID.new node logFile] },
         { entry with id := node.text.getD "" })
      | "Name" =>
        (ctx, { entry with name := node.text.getD "" })
      | "IsCuriosity" =>
        (ctx, { entry with is_curiosity := true })
      | "Curiosity" =>
        ({ ctx with curiosity_references :=
            ctx.curiosity_references ++ [ID.new node logFile] },
         { entry with curiosity := some (node.text.getD "") })
      | "RumorFact" =>
        (ShipLogContext.parseFactNode logFile node ctx,
         ShipLogContext.factSources node entry)
      | "ExploreFact" =>
        (ShipLogContext.parseFactNode logFile node ctx,
         ShipLogContext.factSources node entry)
      | "Entry" =>
        (ShipLogContext.parseEntry logFile aoId (some entry.id) ctx node, entry)
      | _ => (ctx, entry)
    ShipLogContext.parseEntryChildren logFile aoId rest s

end

/-- The body of `ShipLogContext::parse`'s `for` loop over the element
children of the `AstroObjectEntry` node, threading the mutated context
and the local `id` variable. On an `ID` child the astro-object id is
recorded and, when the file has a path relative to the project root,
the relative-path-to-astro-object binding is inserted. -/
def ShipLogContext.parseTop (logFile : ShipLogFile) (relativePath : Option String) :
    List XmlNode → ShipLogContext × String → ShipLogContext × String
  | [], s => s
  | node :: rest, (ctx, id) =>
    let s :=
      match node.name with
      | "ID" =>
        let newId := node.text.getD ""
        let ctx :=
          { ctx with astro_object_ids := ctx.astro_object_ids ++ [ID.new node logFile] }
        let ctx :=
          match relativePath with
          | some rp =>
            { ctx with relative_to_astro_object :=
                ctx.relative_to_astro_object.insert rp newId }
          | none => ctx
        (ctx, newId)
      | "Entry" => (ShipLogContext.parseEntry logFile id none ctx node, id)
      | _ => (ctx, id)
    ShipLogContext.parseTop logFile relativePath rest s

/-- The `ShipLogContext::parse` method on an already-parsed document
tree (`roxmltree::Document::parse` is the black-box parser; its failure
is handled by the caller, which skips the file): find the first
`AstroObjectEntry` descendant and process its children.
`relativePath` is `project_file.get_relative(root_path)`. -/
def ShipLogContext.parse (ctx : ShipLogContext) (logFile : ShipLogFile)
    (relativePath : Option String) (tree : XmlNode) : ShipLogContext :=
  match tree.descendants.find? (fun e => e.name == "AstroObjectEntry") with
  | some node => (ShipLogContext.parseTop logFile relativePath node.children (ctx, "")).fst
  | none => ctx

/-- The `systems.rs` `MVector2` struct (f32 fields modelled as `Int`). -/
structure MVector2 where
  x : Int
  y : Int
deriving DecidableEq, Repr

/-- The `systems.rs` `EntryPos` struct. -/
structure EntryPos where
  id : String
  position : MVector2
deriving DecidableEq, Repr

/-- The `systems.rs` `StarSystem` struct (serde field `entryPositions`). -/
structure StarSystem where
  entry_positions : Option (List EntryPos)
deriving DecidableEq, Repr

/-- Modelled black-box: deserializing `MVector2` from a JSON value
(object with numeric `x` and `y`, extra members ignored). -/
def MVector2.fromJson : Json → Option MVector2
  | j =>
    match j.get "x", j.get "y" with
    | some (Json.num x), some (Json.num y) => some ⟨x, y⟩
    | _, _ => none

/-- Modelled black-box: deserializing `EntryPos` from a JSON value
(object with string `id` and an `MVector2` under `position`). -/
def EntryPos.fromJson (j : Json) : Option EntryPos :=
  match (j.get "id").bind Json.asStr with
  | some id =>
    match (j.get "position").bind MVector2.fromJson with
    | some pos => some ⟨id, pos⟩
    | none => none
  | none => none

/-- Modelled black-box: `serde_json::from_str::<StarSystem>` on an
already-lexed JSON value; the optional `entryPositions` member must be
absent, null, or an array of well-formed `EntryPos` objects. -/
def StarSystem.fromJson : Json → Option StarSystem
  | Json.obj members =>
    match (Json.obj members).get "entryPositions" with
    | none => some ⟨none⟩
    | some Json.null => some ⟨none⟩
    | some (Json.arr elems) => (elems.mapM EntryPos.fromJson).map (fun l => ⟨some l⟩)
    | some _ => none
  | _ => none

/-- The `planets.rs` `ShipLogModule` struct (serde field `xmlFile`). -/
structure ShipLogModule where
  xml_file : Option String
deriving DecidableEq, Repr

/-- The `planets.rs` `Planet` struct; `starSystem` defaults to
`SolarSystem` when the member is absent. -/
structure Planet where
  name : String
  starSystem : String
  ShipLog : Option ShipLogModule
deriving DecidableEq, Repr

/-- Modelled black-box: deserializing `ShipLogModule` from a JSON value. -/
def ShipLogModule.fromJson : Json → Option ShipLogModule
  | Json.obj members =>
    match (Json.obj members).get "xmlFile" with
    | none => some ⟨none⟩
    | some Json.null => some ⟨none⟩
    | some (Json.str s) => some ⟨some s⟩
    | some _ => none
  | _ => none

/-- Modelled black-box: `serde_json::from_str::<Planet>` on an
already-lexed JSON value (`name` required, `starSystem` defaulted,
`ShipLog` optional). -/
def Planet.fromJson : Json → Option Planet
  | Json.obj members =>
    let j := Json.obj members
    match (j.get "name").bind Json.asStr with
    | none => none
    | some name =>
      let starSys :=
        match j.get "starSystem" with
        | none => some "SolarSystem"
        | some (Json.str s) => some s
        | some _ => none
      match starSys with
      | none => none
      | some ss =>
        match j.get "ShipLog" with
        | none => some ⟨name, ss, none⟩
        | some Json.null => some ⟨name, ss, none⟩
        | some v => (ShipLogModule.fromJson v).map (fun m => ⟨name, ss, some m⟩)
  | _ => none

/-- A tracked secondary-config (star-system) file as seen by the
engine: its identifier and the black-box JSON parse of its contents
(`none` when the contents are not valid JSON). -/
structure SystemFileView where
  id : VersionedTextDocumentIdentifier
  json : Option Json

/-- A tracked primary-config (planet) file as seen by the engine. -/
structure PlanetFileView where
  id : VersionedTextDocumentIdentifier
  json : Option Json

/-- A tracked domain-XML (ship-log) file as seen by the engine:
identifier, the result of `get_relative(root_path)` on its path, and
the black-box XML parse of its contents (`none` on parse failure). -/
structure ShipLogFileView where
  id : VersionedTextDocumentIdentifier
  relativePath : Option String
  xml : Option XmlNode

/-- The engine's view of the project: the three file categories the
cross-reference engine reads (`system_files`, `planet_files`,
`ship_log_files`), each file carried with its parsed contents. -/
structure EngineProject where
  system_files : List SystemFileView
  planet_files : List PlanetFileView
  ship_log_files : List ShipLogFileView

/-- The `ShipLogContext::parse_system_positions` method: on a
successful `StarSystem` parse, insert every `(entryId, position)` pair
into the position map; parse failures are logged and ignored. -/
def ShipLogContext.parseSystemPositions (ctx : ShipLogContext)
    (config : SystemFileView) : ShipLogContext :=
  match config.json.bind StarSystem.fromJson with
  | some system =>
    match system.entry_positions with
    | some positions =>
      let newMap := positions.foldl
        (fun m e => m.insert e.id (e.position.x, e.position.y)) ctx.position_map
      { ctx with position_map := newMap }
    | none => ctx
  | none => ctx

/-- The `ShipLogContext::parse_planet` method: on a successful `Planet`
parse with a declared ship-log XML file, record
`starSystem -> [relativeXmlPaths]`; parse failures are logged and
ignored. -/
def ShipLogContext.parsePlanet (ctx : ShipLogContext)
    (config : PlanetFileView) : ShipLogContext :=
  match config.json.bind Planet.fromJson with
  | some planet =>
    match planet.ShipLog.bind (fun m => m.xml_file) with
    | some xmlFile =>
      { ctx with system_to_relative_path :=
          ctx.system_to_relative_path.pushAt planet.starSystem xmlFile }
    | none => ctx
  | none => ctx

/-- Modelled from the spec: the Baseline Dataset (the repository's
`base_game.json`, `base_game_entry_ids.rs` and `base_game_fact_ids.rs`
data files, which are not among the sources): a fixed catalogue of
default entries and reserved entry/fact identifiers. It is carried as
a parameter of the definitions that consume it. -/
structure Baseline where
  entries : List ShipLogEntry
  entryIds : List String
  factIds : List String

/-- The project-processing part of `ShipLogContext::from_project`
(everything before the baseline merge): fold the system files through
`parse_system_positions`, the planet files through `parse_planet`, and
the ship-log files through `parse` (skipping files whose XML did not
parse, which `from_project` only logs). -/
def ShipLogContext.fromProjectPre (p : EngineProject) : ShipLogContext :=
  let ctx := ShipLogContext.init
  let ctx := p.system_files.foldl ShipLogContext.parseSystemPositions ctx
  let ctx := p.planet_files.foldl ShipLogContext.parsePlanet ctx
  p.ship_log_files.foldl
    (fun c f =>
      match f.xml with
      | some tree => c.parse f.id f.relativePath tree
      | none => c)
    ctx

/-- The `ShipLogContext::from_project` constructor: build the context
from the project documents, then `extend` the entry map with the
Baseline Dataset's entries keyed by their ids (a `HashMap::extend`,
which overwrites existing bindings). -/
def ShipLogContext.fromProject (b : Baseline) (p : EngineProject) : ShipLogContext :=
  let ctx := ShipLogContext.fromProjectPre p
  { ctx with entries := ctx.entries.extendList (b.entries.map (fun e => (e.id, e))) }

/-- The `ErrorSet` alias from `validation.rs`
(`Vec<(VersionedTextDocumentIdentifier, Diagnostic)>`). -/
abbrev ErrorSet := List (VersionedTextDocumentIdentifier × Diagnostic)

/-- The `error_codes::ERROR_SOURCE` constant from `utils.rs`. -/
def errorSource : String := "New Horizons"

/-- The `error_codes::SHIPLOG_DUPLICATE_ID` constant. -/
def shiplogDuplicateId : String := "nh.shiplog.duplicate_ids"

/-- The `error_codes::SHIPLOG_MISSING_CURIOSITY` constant. -/
def shiplogMissingCuriosity : String := "nh.shiplog.missing_curiosity"

/-- The `error_codes::SHIPLOG_MISSING_SOURCE_ID` constant. -/
def shiplogMissingSourceId : String := "nh.shiplog.invalid_source_id"

/-- The `error_codes::CONFIG_FILE_PATH_NOT_FOUND` constant. -/
def configFilePathNotFound : String := "nh.config.file_path_invalid"

/-- Modelled from the spec: the `error_codes::SHIPLOG_VANILLA_ID`
constant is referenced by `validate_id_taken` but its definition is not
among the sources; it is some fixed stable error-code string. -/
def shiplogVanillaId : String := "nh.shiplog.vanilla_id"

/-- The `error_codes::get_error_code` helper (wraps a code in `Some`). -/
def getErrorCode (code : String) : Option String := some code

/-- The message of a duplicate-id diagnostic. -/
def dupMessage (idName value : String) : String :=
  "Duplicate " ++ idName ++ " ID: `" ++ value ++ "`"

/-- The diagnostic built for one member of a duplicate buffer. -/
def mkDupDiag (idName : String) (i : ID) : VersionedTextDocumentIdentifier × Diagnostic :=
  (i.source_file,
   { range := i.range, severity := some 1
     code := getErrorCode shiplogDuplicateId
     source := some errorSource
     message := dupMessage idName i.value })

/-- The `ShipLogContext::process_duplicate_buffer` helper: one
duplicate diagnostic per buffered record, appended to the error set. -/
def processDuplicateBuffer (errors : ErrorSet) (idName : String)
    (buffer : List ID) : ErrorSet :=
  errors ++ buffer.map (mkDupDiag idName)

/-- The loop of `validate_id_set_duplicates` over the sorted records:
maintain a buffer of the current run of equal values; when the value
changes (or at the end), flush the buffer through
`process_duplicate_buffer` iff it holds more than one record. -/
def dupLoop (idName : String) : List ID → List ID → ErrorSet → ErrorSet
  | [], buf, errors =>
    if 1 < buf.length then processDuplicateBuffer errors idName buf else errors
  | i :: rest, buf, errors =>
    if (buf.getLast?.map (fun lastId => i.value == lastId.value)).getD false then
      dupLoop idName rest (buf ++ [i]) errors
    else
      let errors :=
        if 1 < buf.length then processDuplicateBuffer errors idName buf else errors
      dupLoop idName rest [i] errors

/-- The sort in `validate_id_set_duplicates`
(`sort_unstable_by_key(|a| a.value.to_string())`): the records ordered
by value. The source's sort is unstable, so any sorted permutation is a
faithful model; insertion sort is used here. -/
def sortByValue (set : IdSet) : IdSet :=
  set.insertionSort (fun a b => a.value ≤ b.value)

/-- The `ShipLogContext::validate_id_set_duplicates` check: sort the
records of one namespace by value and emit one diagnostic per record of
every run of two or more equal values. -/
def validateIdSetDuplicates (errors : ErrorSet) (idName : String)
    (set : IdSet) : ErrorSet :=
  dupLoop idName (sortByValue set) [] errors

/-- The message of a reserved-id diagnostic. -/
def takenMessage (idName value : String) : String :=
  idName ++ " ID `" ++ value ++ "` is taken by the base-game"

/-- The diagnostic built for one reserved-id collision. -/
def mkTakenDiag (idName : String) (i : ID) : VersionedTextDocumentIdentifier × Diagnostic :=
  (i.source_file,
   { range := i.range, severity := some 1
     code := getErrorCode shiplogVanillaId
     source := some errorSource
     message := takenMessage idName i.value })

/-- The `ShipLogContext::validate_id_taken` check: every record whose
value occurs in the corresponding baseline reserved list yields one
diagnostic, anchored at the record's own range. -/
def validateIdTaken (errors : ErrorSet) (idName : String) (set : IdSet)
    (vanilla : List String) : ErrorSet :=
  set.foldl
    (fun errs i =>
      if vanilla.contains i.value then errs ++ [mkTakenDiag idName i] else errs)
    errors

/-- The fixed `KNOWN_CURIOSITIES` list from
`validate_curiosity_references`. -/
def knownCuriosities : List String :=
  ["None", "QuantumMoon", "SunkenModule", "Vessel", "TimeLoop",
   "CometCore", "InvisiblePlanet"]

/-- The curiosity ids one secondary-config document contributes to the
permitted set: when its contents parse as JSON and hold an array member
`curiosities`, the string `id` members of its elements. -/
def fileCuriosities (file : SystemFileView) : List String :=
  match file.json with
  | some contents =>
    match (contents.get "curiosities").bind Json.asArray with
    | some values => values.filterMap (fun v => (v.get "id").bind Json.asStr)
    | none => []
  | none => []

/-- The `custom_curiosities` accumulation loop of
`validate_curiosity_references` over all secondary-config documents. -/
def customCuriosities (system_files : List SystemFileView) : List String :=
  system_files.foldl (fun acc f => acc ++ fileCuriosities f) []

/-- The message of an unknown-curiosity diagnostic. -/
def curiosityMessage (value : String) : String :=
  "Unknown Curiosity: `" ++ value ++ "`. Please define it in a system config"

/-- The diagnostic built for one unknown curiosity reference. -/
def mkCuriosityDiag (r : ID) : VersionedTextDocumentIdentifier × Diagnostic :=
  (r.source_file,
   { range := r.range, severity := some 1
     code := getErrorCode shiplogMissingCuriosity
     source := some errorSource
     message := curiosityMessage r.value })

/-- The `ShipLogContext::validate_curiosity_references` check: build
the permitted set as the fixed built-in list plus every declared
`curiosities[].id` of any secondary-config document, then flag every
curiosity reference outside it. -/
def ShipLogContext.validateCuriosityReferences (ctx : ShipLogContext)
    (system_files : List SystemFileView) (errors : ErrorSet) : ErrorSet :=
  let custom := customCuriosities system_files
  ctx.curiosity_references.foldl
    (fun errs r =>
      if !(knownCuriosities.contains r.value) && !(custom.contains r.value) then
        errs ++ [mkCuriosityDiag r]
      else errs)
    errors

/-- The message of an unknown-entry diagnostic. -/
def unknownEntryMessage (value : String) : String :=
  "Unknown Entry: `" ++ value ++ "`"

/-- The diagnostic built for one unresolved fact source reference. -/
def mkSourceDiag (r : ID) : VersionedTextDocumentIdentifier × Diagnostic :=
  (r.source_file,
   { range := r.range, severity := some 1
     code := getErrorCode shiplogMissingSourceId
     source := some errorSource
     message := unknownEntryMessage r.value })

/-- The `ShipLogContext::validate_source_ids` check: every fact source
reference whose value equals neither a collected entry id nor a
baseline reserved entry id yields one unknown-entry diagnostic. -/
def ShipLogContext.validateSourceIds (ctx : ShipLogContext)
    (vanillaEntryIds : List String) (errors : ErrorSet) : ErrorSet :=
  let flattenedEntryIds := ctx.entry_ids.map (fun i => i.value)
  ctx.source_id_references.foldl
    (fun errs r =>
      if !(flattenedEntryIds.contains r.value) && !(vanillaEntryIds.contains r.value) then
        errs ++ [mkSourceDiag r]
      else errs)
    errors

/-- The `ShipLogContext::validate` rule set: the three duplicate-id
checks, the two reserved-id checks, the curiosity-reference check and
the source-reference check, accumulating diagnostics in that order.
The Baseline Dataset's reserved lists are taken as a parameter (their
data files are not among the sources). -/
def ShipLogContext.validate (ctx : ShipLogContext) (b : Baseline)
    (p : EngineProject) : ErrorSet :=
  let errors : ErrorSet := []
  let errors := validateIdSetDuplicates errors "Astro Object" ctx.astro_object_ids
  let errors := validateIdSetDuplicates errors "Entry" ctx.entry_ids
  let errors := validateIdSetDuplicates errors "Fact" ctx.fact_ids
  let errors := validateIdTaken errors "Entry" ctx.entry_ids b.entryIds
  let errors := validateIdTaken errors "Fact" ctx.fact_ids b.factIds
  let errors := ctx.validateCuriosityReferences p.system_files errors
  ctx.validateSourceIds b.entryIds errors

/-- The fixed `VANILLA_ASTRO_OBJECTS` list from `ship_log.rs`. -/
def VANILLA_ASTRO_OBJECTS : List String :=
  ["SUN_STATION", "CAVE_TWIN", "TOWER_TWIN", "TIMBER_HEARTH",
   "TIMBER_MOON", "BRITTLE_HOLLOW", "VOLCANIC_MOON", "GIANTS_DEEP",
   "ORBITAL_PROBE_CANNON", "DARK_BRAMBLE", "WHITE_HOLE", "COMET",
   "QUANTUM_MOON", "INVISIBLE_PLANET"]

/-- The `ShipLogContext::get_entries_for_system` query: `none` when the
system name is unmapped; otherwise the entries of the entry map whose
astro-object id is among the ids resolved from the system's relative
XML paths, extended by the fixed vanilla astro-object list. -/
def ShipLogContext.getEntriesForSystem (ctx : ShipLogContext)
    (system : String) : Option (List ShipLogEntry) :=
  match ctx.system_to_relative_path.get? system with
  | none => none
  | some paths =>
    let aoIds := paths.filterMap (fun path => ctx.relative_to_astro_object.get? path)
    let aoIds := aoIds ++ VANILLA_ASTRO_OBJECTS
    some (ctx.entries.filterMap
      (fun kv => if aoIds.contains kv.snd.astro_object then some kv.snd else none))

/-- The `ShipLogValidator::validate` method: rebuild the context from
the project and run the rule set over it. -/
def ShipLogValidator.validate (b : Baseline) (p : EngineProject) : ErrorSet :=
  (ShipLogContext.fromProject b p).validate b p

/-- A tracked file of the project store (`project.rs` `ProjectFile`):
identifier (uri + version), path, and raw text contents (opaque at the
store layer; the engine sees the parsed view). -/
structure ProjectFile where
  id : VersionedTextDocumentIdentifier
  nice_path : String
  contents : String
deriving DecidableEq, Repr

/-- The project store (`project.rs` `Project`): the five tracked-file
categories plus the set of files that currently hold diagnostics. -/
structure Project where
  root_path : String
  planet_files : List ProjectFile
  system_files : List ProjectFile
  ship_log_files : List ProjectFile
  dialogue_files : List ProjectFile
  text_files : List ProjectFile
  files_with_diagnostics : List VersionedTextDocumentIdentifier
deriving DecidableEq, Repr

/-- The `Project::check_file_add` helper: scan the category for the
first file with the same uri and a strictly smaller version; replace
its identifier and contents in place and report `true`, else leave the
list unchanged and report `false`. -/
def Project.checkFileAdd (id : VersionedTextDocumentIdentifier)
    (contents : String) : List ProjectFile → List ProjectFile × Bool
  | [] => ([], false)
  | f :: t =>
    if id.uri = f.id.uri ∧ f.id.version < id.version then
      ({ f with id := id, contents := contents } :: t, true)
    else
      let r := Project.checkFileAdd id contents t
      (f :: r.fst, r.snd)

/-- The `Project::open_file` method: try `check_file_add` on the five
categories in the fixed order dialogue, ship-log, system, planet, text,
stopping at the first category that reports a match. -/
def Project.openFile (p : Project) (id : VersionedTextDocumentIdentifier)
    (contents : String) : Project :=
  let r := Project.checkFileAdd id contents p.dialogue_files
  let p := { p with dialogue_files := r.fst }
  if r.snd then p else
  let r := Project.checkFileAdd id contents p.ship_log_files
  let p := { p with ship_log_files := r.fst }
  if r.snd then p else
  let r := Project.checkFileAdd id contents p.system_files
  let p := { p with system_files := r.fst }
  if r.snd then p else
  let r := Project.checkFileAdd id contents p.planet_files
  let p := { p with planet_files := r.fst }
  if r.snd then p else
  let r := Project.checkFileAdd id contents p.text_files
  { p with text_files := r.fst }

/-- The `Project::iter_all` sequence over all tracked files (planet,
system, ship-log, dialogue, text, in that order). -/
def Project.iterAll (p : Project) : List ProjectFile :=
  p.planet_files ++ p.system_files ++ p.ship_log_files ++
    p.dialogue_files ++ p.text_files

/-- The category order `open_file` searches (dialogue, ship-log,
system, planet, text), concatenated. -/
def Project.searchFiles (p : Project) : List ProjectFile :=
  p.dialogue_files ++ (p.ship_log_files ++ (p.system_files ++
    (p.planet_files ++ p.text_files)))

/-- The `ShipLogValidator::should_invalidate` method: some changed path
is the uri of a tracked ship-log or system file. -/
def ShipLogValidator.shouldInvalidate (changedPaths : List Url)
    (p : Project) : Bool :=
  (p.ship_log_files ++ p.system_files).any
    (fun file => changedPaths.contains file.id.uri)

/-- The `FilePathValidator::should_invalidate` method from
`file_paths.rs`: always `true`. -/
def FilePathValidator.shouldInvalidate : List Url → Project → Bool :=
  fun _ _ => true

/-- One registered validator as the orchestrator sees it
(`Box<dyn Validator>`): its invalidation test and its validation
function over the current store. -/
structure ValidatorImpl where
  shouldInvalidate : List Url → Project → Bool
  validate : Project → ErrorSet

/-- The `MainValidator::new` registration list: the ship-log validator
then the file-path validator. Their `validate` bodies go through the
black-box parsers (and, for the file-path checker, the file system),
so they are taken as parameters. -/
def MainValidator.new (shipLogValidate filePathValidate : Project → ErrorSet) :
    List ValidatorImpl :=
  [⟨ShipLogValidator.shouldInvalidate, shipLogValidate⟩,
   ⟨FilePathValidator.shouldInvalidate, filePathValidate⟩]

/-- One `PublishDiagnostics` notification
(`lsp_types::PublishDiagnosticsParams`). -/
structure PublishParams where
  uri : Url
  version : Option Int
  diagnostics : List Diagnostic
deriving DecidableEq, Repr

/-- The `MainValidator::internal_emit` helper: publish the buffered
diagnostics under the buffer's last entry's uri and version. The
source unwraps the last entry; it is only called on non-empty buffers. -/
def internalEmit (currentBuffer : ErrorSet) : List PublishParams :=
  match currentBuffer.getLast? with
  | some last =>
    [{ uri := last.fst.uri, version := some last.fst.version,
       diagnostics := currentBuffer.map (fun e => e.snd) }]
  | none => []

/-- The loop of `MainValidator::emit_diagnostics` over the sorted
errors: buffer maximal runs of equal uris, emitting each finished run. -/
def emitLoop : ErrorSet → ErrorSet → Option Url → List PublishParams
  | [], buf, _ => if buf.isEmpty then [] else internalEmit buf
  | e :: rest, buf, lastUri =>
    if (lastUri.map (fun u => u == e.fst.uri)).getD true then
      emitLoop rest (buf ++ [e]) (some e.fst.uri)
    else
      internalEmit buf ++ emitLoop rest [e] (some e.fst.uri)

/-- The sort in `emit_diagnostics` (`sort_unstable_by_key` on the uri);
the source's sort is unstable, so any sorted permutation is a faithful
model; insertion sort is used here. -/
def sortErrorsByUri (errors : ErrorSet) : ErrorSet :=
  errors.insertionSort (fun a b => a.fst.uri ≤ b.fst.uri)

/-- The `MainValidator::emit_diagnostics` method: group the collected
errors by owning uri and emit one notification per group. -/
def emitDiagnostics (errors : ErrorSet) : List PublishParams :=
  emitLoop (sortErrorsByUri errors) [] none

/-- The `Vec::sort` on uris in `on_change`. -/
def sortUris (l : List Url) : List Url :=
  l.insertionSort (fun a b => a ≤ b)

/-- Helper for `Vec::dedup`: drop elements equal to their predecessor. -/
def dedupAfter (prev : Url) : List Url → List Url
  | [] => []
  | b :: t => if prev = b then dedupAfter prev t else b :: dedupAfter b t

/-- The `Vec::dedup` on the sorted uris in `on_change`: collapse every
run of consecutive equal elements to its first element. -/
def dedupConsecutive : List Url → List Url
  | [] => []
  | a :: t => a :: dedupAfter a t

/-- The error-collection loop of `MainValidator::on_change`: run every
validator whose `should_invalidate` accepts this change and concatenate
their diagnostics in registration order. -/
def collectChangedErrors (validators : List ValidatorImpl)
    (changedPaths : List Url) (p : Project) : ErrorSet :=
  (validators.filter (fun v => v.shouldInvalidate changedPaths p)).foldl
    (fun acc v => acc ++ v.validate p) []

/-- The `MainValidator::on_change` method: collect diagnostics from the
invalidated validators, publish them grouped by file, then publish an
empty list for every tracked file absent from the new diagnostic set
(clearing), and finally prune `files_with_diagnostics`. The result is
the ordered list of publish notifications and the updated store. -/
def onChange (validators : List ValidatorImpl) (changedPaths : List Url)
    (p : Project) : List PublishParams × Project :=
  let errors := collectChangedErrors validators changedPaths p
  let urisWithDiagnostics :=
    dedupConsecutive (sortUris (errors.map (fun e => e.fst.uri)))
  let emitted := emitDiagnostics errors
  let clearing :=
    (p.iterAll.filter (fun f => ¬ urisWithDiagnostics.contains f.id.uri)).map
      (fun f =>
        { uri := f.id.uri
          version :=
            (p.files_with_diagnostics.find? (fun g => g.uri == f.id.uri)).map
              (fun g => g.version)
          diagnostics := [] })
  let newFwd :=
    p.files_with_diagnostics.filter
      (fun f => ¬ changedPaths.contains f.uri ∨ urisWithDiagnostics.contains f.uri)
  (emitted ++ clearing, { p with files_with_diagnostics := newFwd })

/-! Helper lemmas about the embedded operations. -/

theorem SMap.get?_insert {A : Type} (m : SMap A) (k : String) (v : A) (k' : String) :
    (m.insert k v).get? k' = if k = k' then some v else m.get? k' := by
  induction m with
  | nil => simp [SMap.insert, SMap.get?]
  | cons a t ih =>
    obtain ⟨ka, va⟩ := a
    by_cases h1 : ka = k
    · subst h1
      by_cases h2 : ka = k' <;> simp [SMap.insert, SMap.get?, h2]
    · by_cases h2 : ka = k'
      · subst h2
        have hkk : ¬ k = ka := fun he => h1 he.symm
        simp [SMap.insert, SMap.get?, h1, hkk]
      · simp [SMap.insert, SMap.get?, h1, h2, ih]

theorem SMap.get?_extendList_of_not_mem {A : Type} (l : List (String × A))
    (k : String) (h : ∀ kv ∈ l, kv.fst ≠ k) (m : SMap A) :
    (m.extendList l).get? k = m.get? k := by
  induction l generalizing m with
  | nil => simp [SMap.extendList]
  | cons a t ih =>
    have ha : a.fst ≠ k := h a (by simp)
    have ht : ∀ kv ∈ t, kv.fst ≠ k := fun kv hkv => h kv (by simp [hkv])
    have hstep : (m.extendList (a :: t)) = ((m.insert a.fst a.snd).extendList t) := rfl
    rw [hstep, ih ht, SMap.get?_insert]
    simp [ha]

theorem SMap.get?_extendList_of_mem {A : Type} (l : List (String × A))
    (k : String) (v : A) (hmem : (k, v) ∈ l)
    (huniq : ∀ kv ∈ l, kv.fst = k → kv.snd = v) (m : SMap A) :
    (m.extendList l).get? k = some v := by
  induction l generalizing m with
  | nil => simp at hmem
  | cons a t ih =>
    have hstep : (m.extendList (a :: t)) = ((m.insert a.fst a.snd).extendList t) := rfl
    by_cases hk : ∃ kv ∈ t, kv.fst = k
    · obtain ⟨kv, hkv, hfst⟩ := hk
      have hsnd : kv.snd = v := huniq kv (by simp [hkv]) hfst
      have hmem' : (k, v) ∈ t := by
        have hkv2 : kv = (k, v) := by
          obtain ⟨kf, ks⟩ := kv
          simp only at hfst hsnd
          rw [hfst, hsnd]
        rwa [hkv2] at hkv
      have huniq' : ∀ kv ∈ t, kv.fst = k → kv.snd = v :=
        fun kv2 hkv2 hf => huniq kv2 (by simp [hkv2]) hf
      rw [hstep, ih hmem' huniq']
    · push_neg at hk
      rcases List.mem_cons.mp hmem with h | h
      · subst h
        rw [hstep, SMap.get?_extendList_of_not_mem t k hk, SMap.get?_insert]
        simp
      · exact absurd rfl (hk (k, v) h)


theorem string_affix_inj (pre post : String) {a b : String}
    (h : pre ++ a ++ post = pre ++ b ++ post) : a = b := by
  have hd := congrArg String.data h
  simp only [String.data_append, List.append_assoc] at hd
  exact String.ext (List.append_cancel_right (List.append_cancel_left hd))

theorem dupMessage_inj (n : String) {a b : String}
    (h : dupMessage n a = dupMessage n b) : a = b :=
  string_affix_inj ("Duplicate " ++ n ++ " ID: `") "`" h

theorem takenMessage_inj (n : String) {a b : String}
    (h : takenMessage n a = takenMessage n b) : a = b :=
  string_affix_inj (n ++ " ID `") "` is taken by the base-game" h

theorem curiosityMessage_inj {a b : String}
    (h : curiosityMessage a = curiosityMessage b) : a = b :=
  string_affix_inj "Unknown Curiosity: `" "`. Please define it in a system config" h

theorem unknownEntryMessage_inj {a b : String}
    (h : unknownEntryMessage a = unknownEntryMessage b) : a = b :=
  string_affix_inj "Unknown Entry: `" "`" h

theorem foldl_push_eq {α β : Type} (q : α → Bool) (g : α → β) (l : List α)
    (acc : List β) :
    l.foldl (fun errs i => if q i then errs ++ [g i] else errs) acc
      = acc ++ (l.filter q).map g := by
  induction l generalizing acc with
  | nil => simp
  | cons a t ih =>
    rw [List.foldl_cons, List.filter_cons]
    by_cases h : q a
    · rw [if_pos h, if_pos h, ih]
      simp
    · rw [if_neg h, if_neg h, ih]

theorem validateIdTaken_eq (errors : ErrorSet) (idName : String) (set : IdSet)
    (vanilla : List String) :
    validateIdTaken errors idName set vanilla
      = errors ++ (set.filter (fun i => vanilla.contains i.value)).map (mkTakenDiag idName) := by
  unfold validateIdTaken
  exact foldl_push_eq (fun i => vanilla.contains i.value) (mkTakenDiag idName) set errors

theorem validateCuriosityReferences_eq (ctx : ShipLogContext)
    (system_files : List SystemFileView) (errors : ErrorSet) :
    ctx.validateCuriosityReferences system_files errors
      = errors ++ (ctx.curiosity_references.filter
          (fun r => !(knownCuriosities.contains r.value) &&
            !((customCuriosities system_files).contains r.value))).map mkCuriosityDiag := by
  unfold ShipLogContext.validateCuriosityReferences
  exact foldl_push_eq
    (fun r => !(knownCuriosities.contains r.value) &&
      !((customCuriosities system_files).contains r.value))
    mkCuriosityDiag ctx.curiosity_references errors

theorem validateSourceIds_eq (ctx : ShipLogContext) (vanillaEntryIds : List String)
    (errors : ErrorSet) :
    ctx.validateSourceIds vanillaEntryIds errors
      = errors ++ (ctx.source_id_references.filter
          (fun r => !((ctx.entry_ids.map (fun i => i.value)).contains r.value) &&
            !(vanillaEntryIds.contains r.value))).map mkSourceDiag := by
  unfold ShipLogContext.validateSourceIds
  exact foldl_push_eq
    (fun r => !((ctx.entry_ids.map (fun i => i.value)).contains r.value) &&
      !(vanillaEntryIds.contains r.value))
    mkSourceDiag ctx.source_id_references errors

instance : IsTotal ID (fun a b => a.value ≤ b.value) :=
  ⟨fun a b => le_total a.value b.value⟩

instance : IsTrans ID (fun a b => a.value ≤ b.value) :=
  ⟨fun _ _ _ hab hbc => le_trans hab hbc⟩

theorem dupLoop_append_errs (n : String) (s : List ID) :
    ∀ (buf : List ID) (e : ErrorSet),
      dupLoop n s buf e = e ++ dupLoop n s buf [] := by
  induction s with
  | nil =>
    intro buf e
    by_cases h : 1 < buf.length <;>
      simp [dupLoop, h, processDuplicateBuffer]
  | cons i rest ih =>
    intro buf e
    by_cases hc : (buf.getLast?.map (fun lastId => i.value == lastId.value)).getD false
    · simp only [dupLoop, if_pos hc]
      exact ih (buf ++ [i]) e
    · simp only [dupLoop, if_neg hc]
      by_cases h : 1 < buf.length
      · simp only [if_pos h, processDuplicateBuffer]
        rw [ih [i] (e ++ (buf.map (mkDupDiag n))), ih [i] ([] ++ (buf.map (mkDupDiag n)))]
        simp
      · simp only [if_neg h]
        exact ih [i] e

theorem dupLoop_run (n : String) (s : List ID) :
    ∀ (buf : List ID) (v : String),
      buf ≠ [] → (∀ x ∈ buf, x.value = v) →
      List.Sorted (fun a b : ID => a.value ≤ b.value) s →
      (∀ x ∈ s, v ≤ x.value) →
      dupLoop n s buf []
        = ((buf ++ s).filter
            (fun i => decide (2 ≤ (buf ++ s).countP (fun j => j.value == i.value)))).map
            (mkDupDiag n) := by
  induction s with
  | nil =>
    intro buf v hne hbv _hs _hb
    rw [List.append_nil]
    have hcount : ∀ x ∈ buf, buf.countP (fun j => j.value == x.value) = buf.length := by
      intro x hx
      apply List.countP_eq_length.mpr
      intro j hj
      simp [hbv j hj, hbv x hx]
    by_cases hlen : 1 < buf.length
    · have hall : ∀ x ∈ buf,
          (decide (2 ≤ buf.countP (fun j => j.value == x.value))) = true := by
        intro x hx
        rw [hcount x hx]
        simpa using hlen
      simp only [dupLoop, if_pos hlen, List.filter_eq_self.mpr hall, processDuplicateBuffer]
      simp
    · have hall : ∀ x ∈ buf,
          ¬ (decide (2 ≤ buf.countP (fun j => j.value == x.value))) = true := by
        intro x hx
        rw [hcount x hx]
        simp only [decide_eq_true_eq]
        omega
      have hfil : buf.filter (fun x => decide (2 ≤ buf.countP (fun j => j.value == x.value))) = [] := by
        simp only [List.filter_eq_nil_iff]
        exact hall
      simp only [dupLoop, if_neg hlen, hfil, List.map_nil]
  | cons i rest ih =>
    intro buf v hne hbv hs hb
    have hgl : ∃ lst, buf.getLast? = some lst ∧ lst.value = v := by
      cases buf with
      | nil => exact absurd rfl hne
      | cons b bt =>
        exact ⟨(b :: bt).getLast (by simp), by simp [List.getLast?_eq_getLast],
          hbv _ (List.getLast_mem _)⟩
    obtain ⟨lst, hlst, hlstv⟩ := hgl
    have hrel : ∀ x ∈ rest, i.value ≤ x.value := List.rel_of_sorted_cons hs
    by_cases hiv : i.value = v
    · have hcond : (buf.getLast?.map (fun lastId => i.value == lastId.value)).getD false = true := by
        rw [hlst]
        simp [hlstv, hiv]
      simp only [dupLoop, hcond, if_true]
      have hres := ih (buf ++ [i]) v
        (by simp)
        (by
          intro x hx
          rcases List.mem_append.mp hx with h | h
          · exact hbv x h
          · simp at h
            rw [h, hiv])
        hs.of_cons
        (by
          intro x hx
          rw [← hiv]
          exact hrel x hx)
      rw [hres, List.append_cons buf i rest]
    · have hcond : (buf.getLast?.map (fun lastId => i.value == lastId.value)).getD false = false := by
        rw [hlst]
        simp [hlstv, hiv]
      simp only [dupLoop, hcond, Bool.false_eq_true, if_false]
      rw [dupLoop_append_errs]
      have hvlei : v ≤ i.value := hb i (by simp)
      have hvlt : v < i.value := lt_of_le_of_ne hvlei (fun he => hiv he.symm)
      have hrestne : ∀ x ∈ i :: rest, x.value ≠ v := by
        intro x hx
        rcases List.mem_cons.mp hx with h | h
        · rw [h]; exact hiv
        · exact fun he => absurd (he ▸ hrel x h) (not_le_of_lt hvlt)
      have hres := ih [i] i.value
        (by simp)
        (by intro x hx; simp at hx; rw [hx])
        hs.of_cons
        hrel
      have hsingle : [i] ++ rest = i :: rest := rfl
      rw [hsingle] at hres
      rw [hres]
      rw [List.filter_append, List.map_append]
      have hbufpart :
          buf.filter (fun x => decide (2 ≤ (buf ++ i :: rest).countP (fun j => j.value == x.value)))
            = buf.filter (fun _ => decide (2 ≤ buf.length)) := by
        apply List.filter_congr
        intro x hx
        have h1 : buf.countP (fun j => j.value == x.value) = buf.length := by
          apply List.countP_eq_length.mpr
          intro j hj
          simp [hbv j hj, hbv x hx]
        have h2 : (i :: rest).countP (fun j => j.value == x.value) = 0 := by
          simp only [List.countP_eq_zero]
          intro j hj
          simp [hbv x hx, hrestne j hj]
        rw [List.countP_append, h1, h2]
        simp
      have hrestpart :
          (i :: rest).filter
              (fun x => decide (2 ≤ (buf ++ i :: rest).countP (fun j => j.value == x.value)))
            = (i :: rest).filter
              (fun x => decide (2 ≤ (i :: rest).countP (fun j => j.value == x.value))) := by
        apply List.filter_congr
        intro x hx
        have h1 : buf.countP (fun j => j.value == x.value) = 0 := by
          simp only [List.countP_eq_zero]
          intro j hj
          have : j.value = v := hbv j hj
          simp [this]
          exact fun he => hrestne x hx (he ▸ rfl)
        rw [List.countP_append, h1]
        simp
      rw [hbufpart, hrestpart]
      by_cases hlen : 1 < buf.length
      · have hfilself : buf.filter (fun x => decide (2 ≤ buf.length)) = buf :=
          List.filter_eq_self.mpr (fun a _ => by
            simp only [decide_eq_true_eq]
            omega)
        rw [if_pos hlen, hfilself]
        simp [processDuplicateBuffer]
      · have hfilnil : buf.filter (fun x => decide (2 ≤ buf.length)) = [] :=
          List.filter_eq_nil_iff.mpr (fun a _ => by
            simp only [decide_eq_true_eq]
            omega)
        rw [if_neg hlen, hfilnil]
        simp

theorem validateIdSetDuplicates_eq (errors : ErrorSet) (n : String) (set : IdSet) :
    validateIdSetDuplicates errors n set
      = errors ++ ((sortByValue set).filter
          (fun i => decide (2 ≤ (sortByValue set).countP (fun j => j.value == i.value)))).map
          (mkDupDiag n) := by
  unfold validateIdSetDuplicates
  rw [dupLoop_append_errs]
  congr 1
  have hsorted : List.Sorted (fun a b : ID => a.value ≤ b.value) (sortByValue set) :=
    List.sorted_insertionSort _ set
  rcases hcase : sortByValue set with _ | ⟨i, rest⟩
  · simp [dupLoop]
  · rw [hcase] at hsorted
    have hstep : dupLoop n (i :: rest) [] [] = dupLoop n rest [i] [] := by
      simp [dupLoop]
    rw [hstep]
    have hrun := dupLoop_run n rest [i] i.value (by simp)
      (by intro x hx; simp at hx; rw [hx])
      hsorted.of_cons (List.rel_of_sorted_cons hsorted)
    rw [hrun]
    rfl

theorem mkDupDiag_message_check (n v : String) (i : ID) :
    ((mkDupDiag n i).snd.message == dupMessage n v) = (i.value == v) := by
  by_cases h : i.value = v
  · simp [mkDupDiag, h]
  · have hne : dupMessage n i.value ≠ dupMessage n v := fun he => h (dupMessage_inj n he)
    simp [mkDupDiag, h, hne]

/-- C2: for each identifier namespace checked by
`validate_id_set_duplicates` (instantiated with the astro-object, entry
and fact record sets), a value occurring `k ≥ 2` times yields exactly
`k` duplicate diagnostics for that value whose owning files and ranges
are exactly those of the occurrences, and a value occurring exactly
once yields no duplicate diagnostic. -/
theorem c2_duplicate_check_exact (n : String) (ids : IdSet) (v : String) :
    (2 ≤ (ids.filter (fun i => i.value == v)).length →
      List.Perm
        (((validateIdSetDuplicates [] n ids).filter
            (fun e => e.snd.message == dupMessage n v)).map (fun e => (e.fst, e.snd.range)))
        ((ids.filter (fun i => i.value == v)).map (fun i => (i.source_file, i.range)))
      ∧ ((validateIdSetDuplicates [] n ids).filter
            (fun e => e.snd.message == dupMessage n v)).length
          = (ids.filter (fun i => i.value == v)).length)
    ∧ ((ids.filter (fun i => i.value == v)).length = 1 →
        (validateIdSetDuplicates [] n ids).filter
            (fun e => e.snd.message == dupMessage n v) = []) := by
  have hperm : List.Perm (sortByValue ids) ids := List.perm_insertionSort _ ids
  have hchar : validateIdSetDuplicates [] n ids
      = ((sortByValue ids).filter
          (fun i => decide (2 ≤ (sortByValue ids).countP (fun j => j.value == i.value)))).map
          (mkDupDiag n) := by
    rw [validateIdSetDuplicates_eq]
    simp
  have hfilter :
      (validateIdSetDuplicates [] n ids).filter (fun e => e.snd.message == dupMessage n v)
        = ((sortByValue ids).filter
            (fun i => (i.value == v) &&
              decide (2 ≤ (sortByValue ids).countP (fun j => j.value == i.value)))).map
            (mkDupDiag n) := by
    rw [hchar, List.filter_map, List.filter_filter]
    congr 1
    apply List.filter_congr
    intro a _
    have : ((fun e : VersionedTextDocumentIdentifier × Diagnostic =>
        e.snd.message == dupMessage n v) ∘ mkDupDiag n) a = (a.value == v) :=
      mkDupDiag_message_check n v a
    rw [this]
  have hcnt : (sortByValue ids).countP (fun j => j.value == v)
      = (ids.filter (fun i => i.value == v)).length := by
    rw [hperm.countP_eq, List.countP_eq_length_filter]
  have hpt : ∀ a : ID, a.value = v →
      (sortByValue ids).countP (fun j => j.value == a.value)
        = (ids.filter (fun i => i.value == v)).length := by
    intro a ha
    rw [ha, hcnt]
  constructor
  · intro h2
    have hfe : (sortByValue ids).filter
          (fun i => (i.value == v) &&
            decide (2 ≤ (sortByValue ids).countP (fun j => j.value == i.value)))
        = (sortByValue ids).filter (fun i => i.value == v) := by
      apply List.filter_congr
      intro a _
      by_cases hv : a.value = v
      · rw [hpt a hv]
        simp [hv, h2]
      · simp [hv]
    constructor
    · rw [hfilter, hfe, List.map_map]
      exact (hperm.filter _).map _
    · rw [hfilter, hfe, List.length_map]
      exact (hperm.filter _).length_eq
  · intro h1
    have hfe : (sortByValue ids).filter
          (fun i => (i.value == v) &&
            decide (2 ≤ (sortByValue ids).countP (fun j => j.value == i.value)))
        = [] := by
      apply List.filter_eq_nil_iff.mpr
      intro a _
      by_cases hv : a.value = v
      · rw [hpt a hv, h1]
        simp
      · simp [hv]
    rw [hfilter, hfe]
    rfl

/-- Concrete record set for exercising the duplicate check: the value
`EXAMPLE_ENTRY` occurs twice, `OTHER` once. -/
def c2ids : IdSet :=
  [⟨"EXAMPLE_ENTRY", ⟨"file:///a.xml", 0⟩, ⟨⟨3, 4⟩, ⟨3, 20⟩⟩⟩,
   ⟨"OTHER", ⟨"file:///a.xml", 0⟩, ⟨⟨5, 4⟩, ⟨5, 12⟩⟩⟩,
   ⟨"EXAMPLE_ENTRY", ⟨"file:///a.xml", 0⟩, ⟨⟨8, 4⟩, ⟨8, 20⟩⟩⟩]

/-- Witness for C2 at a concrete record set with a duplicated value. -/
theorem c2_duplicate_check_exact_witness :
    2 ≤ (c2ids.filter (fun i => i.value == "EXAMPLE_ENTRY")).length
    ∧ (List.Perm
        (((validateIdSetDuplicates [] "Entry" c2ids).filter
            (fun e => e.snd.message == dupMessage "Entry" "EXAMPLE_ENTRY")).map
            (fun e => (e.fst, e.snd.range)))
        ((c2ids.filter (fun i => i.value == "EXAMPLE_ENTRY")).map
            (fun i => (i.source_file, i.range)))
      ∧ ((validateIdSetDuplicates [] "Entry" c2ids).filter
            (fun e => e.snd.message == dupMessage "Entry" "EXAMPLE_ENTRY")).length
          = (c2ids.filter (fun i => i.value == "EXAMPLE_ENTRY")).length) :=
  ⟨by decide, (c2_duplicate_check_exact "Entry" c2ids "EXAMPLE_ENTRY").1 (by decide)⟩

/-- Concrete ship-log document tree whose `AstroObjectEntry` declares
astro-object `TEST_PLANET` with one entry `TEST_ENTRY`. -/
def c1tree : XmlNode :=
  .mk "" ⟨1, 1⟩ ⟨12, 1⟩ none
    [.mk "AstroObjectEntry" ⟨1, 1⟩ ⟨12, 1⟩ none
      [.mk "ID" ⟨2, 3⟩ ⟨2, 20⟩ (some "TEST_PLANET") [],
       .mk "Entry" ⟨3, 3⟩ ⟨6, 3⟩ none
         [.mk "ID" ⟨4, 5⟩ ⟨4, 25⟩ (some "TEST_ENTRY") []]]]

/-- Concrete engine project holding the single ship-log document above. -/
def c1project : EngineProject :=
  { system_files := []
    planet_files := []
    ship_log_files :=
      [⟨⟨"file:///planets/xml/test.xml", 0⟩, some "planets/xml/test.xml", some c1tree⟩] }

/-- Concrete baseline whose entry list reserves the id `TEST_ENTRY`
with its own (different) entry payload. -/
def c1baseline : Baseline :=
  { entries :=
      [{ ShipLogEntry.init with
          id := "TEST_ENTRY", astro_object := "TIMBER_HEARTH", name := "Village" }]
    entryIds := ["TEST_ENTRY"]
    factIds := [] }

/-- Counterexample to C1 as stated: in `from_project` the baseline
merge uses `HashMap::extend`, so the project-defined entry under
`TEST_ENTRY` (present before the merge) is replaced by the baseline's
entry, not kept. -/
theorem c1_counterexample :
    (((ShipLogContext.fromProjectPre c1project).entries).get? "TEST_ENTRY").isSome = true
    ∧ ((ShipLogContext.fromProject c1baseline c1project).entries).get? "TEST_ENTRY"
        ≠ ((ShipLogContext.fromProjectPre c1project).entries).get? "TEST_ENTRY" := by
  decide

/-- C1 (amended): the baseline merge of `from_project` preserves every
project-built entry whose id is not among the baseline entry ids, and
an id carried by the baseline (uniquely) ends up mapped to the
baseline's entry — baseline entries overwrite project entries on
collision, never the other way round. -/
theorem c1_baseline_merge (b : Baseline) (p : EngineProject) :
    (∀ idv : String, (∀ e ∈ b.entries, e.id ≠ idv) →
      ((ShipLogContext.fromProject b p).entries).get? idv
        = ((ShipLogContext.fromProjectPre p).entries).get? idv)
    ∧ (∀ e ∈ b.entries, (∀ e2 ∈ b.entries, e2.id = e.id → e2 = e) →
      ((ShipLogContext.fromProject b p).entries).get? e.id = some e) := by
  constructor
  · intro idv h
    show ((ShipLogContext.fromProjectPre p).entries.extendList
      (b.entries.map (fun e => (e.id, e)))).get? idv = _
    apply SMap.get?_extendList_of_not_mem
    intro kv hkv
    obtain ⟨e, he, rfl⟩ := List.mem_map.mp hkv
    exact h e he
  · intro e he hu
    show ((ShipLogContext.fromProjectPre p).entries.extendList
      (b.entries.map (fun e => (e.id, e)))).get? e.id = some e
    apply SMap.get?_extendList_of_mem
    · exact List.mem_map.mpr ⟨e, he, rfl⟩
    · intro kv hkv hfst
      obtain ⟨e2, he2, rfl⟩ := List.mem_map.mp hkv
      exact hu e2 he2 hfst

/-- Witness for the amended C1 at concrete inputs: an id outside the
baseline is preserved, and the baseline's own id resolves to the
baseline entry after the merge. -/
theorem c1_baseline_merge_witness :
    ((∀ e ∈ c1baseline.entries, e.id ≠ "TEST_PLANET")
      ∧ ((ShipLogContext.fromProject c1baseline c1project).entries).get? "TEST_PLANET"
          = ((ShipLogContext.fromProjectPre c1project).entries).get? "TEST_PLANET") :=
  ⟨by decide, (c1_baseline_merge c1baseline c1project).1 "TEST_PLANET" (by decide)⟩

/-- C6: every entry/fact record whose value lies in the corresponding
baseline reserved list receives a reserved-id diagnostic anchored at
that occurrence (with the base-game message, as an error), even when
the value is unique in the project, and a record whose value is not
reserved never receives one. -/
theorem c6_reserved_id_check (n : String) (ids : IdSet) (vanilla : List String)
    (i : ID) (hi : i ∈ ids) :
    (i.value ∈ vanilla →
      ∃ e ∈ validateIdTaken [] n ids vanilla,
        e.fst = i.source_file ∧ e.snd.range = i.range ∧ e.snd.severity = some 1
          ∧ e.snd.message = takenMessage n i.value)
    ∧ (i.value ∉ vanilla →
      ∀ e ∈ validateIdTaken [] n ids vanilla, e.snd.message ≠ takenMessage n i.value) := by
  constructor
  · intro hv
    refine ⟨mkTakenDiag n i, ?_, rfl, rfl, rfl, rfl⟩
    rw [validateIdTaken_eq]
    simp only [List.nil_append]
    exact List.mem_map.mpr ⟨i, List.mem_filter.mpr ⟨hi, by simp [hv]⟩, rfl⟩
  · intro hv e he hmsg
    rw [validateIdTaken_eq] at he
    simp only [List.nil_append] at he
    obtain ⟨i2, hi2, rfl⟩ := List.mem_map.mp he
    obtain ⟨_, hcont⟩ := List.mem_filter.mp hi2
    have hval : i2.value = i.value := takenMessage_inj n hmsg
    apply hv
    rw [← hval]
    simpa using hcont

/-- Concrete single-record set whose only value is reserved. -/
def c6ids : IdSet :=
  [⟨"TH_VILLAGE", ⟨"file:///a.xml", 0⟩, ⟨⟨2, 4⟩, ⟨2, 14⟩⟩⟩]

/-- Witness for C6: a unique (non-duplicated) record with a reserved
value still gets the reserved-id diagnostic. -/
theorem c6_reserved_id_check_witness :
    ((⟨"TH_VILLAGE", ⟨"file:///a.xml", 0⟩, ⟨⟨2, 4⟩, ⟨2, 14⟩⟩⟩ : ID) ∈ c6ids
        ∧ "TH_VILLAGE" ∈ ["TH_VILLAGE", "TH_ZERO_G_CAVE"])
    ∧ ∃ e ∈ validateIdTaken [] "Entry" c6ids ["TH_VILLAGE", "TH_ZERO_G_CAVE"],
        e.fst = (⟨"file:///a.xml", 0⟩ : VersionedTextDocumentIdentifier)
          ∧ e.snd.range = (⟨⟨2, 4⟩, ⟨2, 14⟩⟩ : LspRange) ∧ e.snd.severity = some 1
          ∧ e.snd.message = takenMessage "Entry" "TH_VILLAGE" :=
  ⟨⟨by decide, by decide⟩,
    (c6_reserved_id_check "Entry" c6ids ["TH_VILLAGE", "TH_ZERO_G_CAVE"]
      ⟨"TH_VILLAGE", ⟨"file:///a.xml", 0⟩, ⟨⟨2, 4⟩, ⟨2, 14⟩⟩⟩ (by decide)).1 (by decide)⟩

/-- Whether a collected diagnostic is anchored at reference `r` (same
owning file and range) and carries message `msg`. -/
def diagAnchoredAt (r : ID) (msg : String)
    (d : VersionedTextDocumentIdentifier × Diagnostic) : Bool :=
  d.fst == r.source_file && d.snd.range == r.range && d.snd.message == msg

/-- Whether two identifier records agree on owning file, range and
value (multiplicity of a reference occurrence). -/
def idMatches (r r2 : ID) : Bool :=
  r2.source_file == r.source_file && r2.range == r.range && r2.value == r.value

theorem diagAnchoredAt_mkSourceDiag (r r2 : ID) :
    diagAnchoredAt r (unknownEntryMessage r.value) (mkSourceDiag r2) = idMatches r r2 := by
  by_cases h : r2.value = r.value
  · simp [diagAnchoredAt, idMatches, mkSourceDiag, h]
  · have hne : unknownEntryMessage r2.value ≠ unknownEntryMessage r.value :=
      fun he => h (unknownEntryMessage_inj he)
    have h1 : (unknownEntryMessage r2.value == unknownEntryMessage r.value) = false := by
      simp [hne]
    have h2 : (r2.value == r.value) = false := by simp [h]
    simp only [diagAnchoredAt, idMatches, mkSourceDiag, h1, h2, Bool.and_false]

theorem diagAnchoredAt_mkCuriosityDiag (r r2 : ID) :
    diagAnchoredAt r (curiosityMessage r.value) (mkCuriosityDiag r2) = idMatches r r2 := by
  by_cases h : r2.value = r.value
  · simp [diagAnchoredAt, idMatches, mkCuriosityDiag, h]
  · have hne : curiosityMessage r2.value ≠ curiosityMessage r.value :=
      fun he => h (curiosityMessage_inj he)
    have h1 : (curiosityMessage r2.value == curiosityMessage r.value) = false := by
      simp [hne]
    have h2 : (r2.value == r.value) = false := by simp [h]
    simp only [diagAnchoredAt, idMatches, mkCuriosityDiag, h1, h2, Bool.and_false]

theorem idMatches_value {r r2 : ID} (h : idMatches r r2 = true) : r2.value = r.value := by
  simp only [idMatches, Bool.and_eq_true, beq_iff_eq] at h
  exact h.2

/-- C5: a fact source reference yields a diagnostic iff its value
matches neither a collected entry id nor a baseline reserved entry id;
a failing reference yields exactly one `Unknown Entry` diagnostic per
occurrence, anchored at the reference's own file and range. -/
theorem c5_source_reference_check (ctx : ShipLogContext) (vanillaEntryIds : List String)
    (r : ID) (hr : r ∈ ctx.source_id_references) :
    (((∃ e ∈ ctx.entry_ids, e.value = r.value) ∨ r.value ∈ vanillaEntryIds) →
      (ctx.validateSourceIds vanillaEntryIds []).countP
          (diagAnchoredAt r (unknownEntryMessage r.value)) = 0)
    ∧ (¬ ((∃ e ∈ ctx.entry_ids, e.value = r.value) ∨ r.value ∈ vanillaEntryIds) →
      (ctx.validateSourceIds vanillaEntryIds []).countP
            (diagAnchoredAt r (unknownEntryMessage r.value))
          = ctx.source_id_references.countP (fun r2 => idMatches r r2)
        ∧ 1 ≤ (ctx.validateSourceIds vanillaEntryIds []).countP
            (diagAnchoredAt r (unknownEntryMessage r.value))) := by
  have hcp : (ctx.validateSourceIds vanillaEntryIds []).countP
        (diagAnchoredAt r (unknownEntryMessage r.value))
      = ctx.source_id_references.countP
          (fun r2 => idMatches r r2 &&
            (!((ctx.entry_ids.map (fun i => i.value)).contains r2.value) &&
              !(vanillaEntryIds.contains r2.value))) := by
    rw [validateSourceIds_eq]
    simp only [List.nil_append]
    rw [List.countP_map, List.countP_filter]
    apply List.countP_congr
    intro r2 _
    have hco : (diagAnchoredAt r (unknownEntryMessage r.value) ∘ mkSourceDiag) r2
        = idMatches r r2 := diagAnchoredAt_mkSourceDiag r r2
    rw [hco]
  constructor
  · intro hres
    rw [hcp]
    simp only [List.countP_eq_zero]
    intro r2 _ hcontra
    simp only [Bool.and_eq_true] at hcontra
    obtain ⟨hm, hb1, hb2⟩ := hcontra
    have hval : r2.value = r.value := idMatches_value hm
    rcases hres with ⟨e, he, hev⟩ | hvan
    · have hmem : r2.value ∈ ctx.entry_ids.map (fun i => i.value) := by
        rw [hval]
        exact List.mem_map.mpr ⟨e, he, hev⟩
      simp [hmem] at hb1
    · have hmem : r2.value ∈ vanillaEntryIds := by
        rw [hval]
        exact hvan
      simp [hmem] at hb2
  · intro hres
    rw [not_or] at hres
    obtain ⟨hA, hB⟩ := hres
    have hbadr : ∀ r2 : ID, r2.value = r.value →
        (!((ctx.entry_ids.map (fun i => i.value)).contains r2.value) &&
          !(vanillaEntryIds.contains r2.value)) = true := by
      intro r2 hv
      have h1 : r2.value ∉ ctx.entry_ids.map (fun i => i.value) := by
        rw [hv]
        intro hmem
        obtain ⟨e, he, hev⟩ := List.mem_map.mp hmem
        exact hA ⟨e, he, hev⟩
      have h2 : r2.value ∉ vanillaEntryIds := hv ▸ hB
      simp [h1, h2]
    constructor
    · rw [hcp]
      apply List.countP_congr
      intro r2 _
      by_cases hm : idMatches r r2 = true
      · rw [hm, hbadr r2 (idMatches_value hm)]
        rfl
      · have hm2 : idMatches r r2 = false := by
          revert hm
          cases idMatches r r2 <;> simp
        simp [hm2]
    · rw [hcp]
      exact List.countP_pos_iff.mpr
        ⟨r, hr, by simp only [Bool.and_eq_true]; exact ⟨by simp [idMatches], by
          simpa using hbadr r rfl⟩⟩

/-- Concrete context holding a single fact source reference
`GABAGOOL` and no entry ids (the spec's example scenario). -/
def c5ctx : ShipLogContext :=
  { ShipLogContext.init with
      source_id_references := [⟨"GABAGOOL", ⟨"file:///a.xml", 0⟩, ⟨⟨7, 6⟩, ⟨7, 27⟩⟩⟩] }

/-- Witness for C5: the unresolvable `GABAGOOL` reference yields
exactly one `Unknown Entry` diagnostic anchored at it. -/
theorem c5_source_reference_check_witness :
    ((⟨"GABAGOOL", ⟨"file:///a.xml", 0⟩, ⟨⟨7, 6⟩, ⟨7, 27⟩⟩⟩ : ID) ∈ c5ctx.source_id_references
      ∧ ¬ ((∃ e ∈ c5ctx.entry_ids,
            e.value = (⟨"GABAGOOL", ⟨"file:///a.xml", 0⟩, ⟨⟨7, 6⟩, ⟨7, 27⟩⟩⟩ : ID).value)
          ∨ (⟨"GABAGOOL", ⟨"file:///a.xml", 0⟩, ⟨⟨7, 6⟩, ⟨7, 27⟩⟩⟩ : ID).value
              ∈ ["TH_VILLAGE"]))
    ∧ ((c5ctx.validateSourceIds ["TH_VILLAGE"] []).countP
          (diagAnchoredAt (⟨"GABAGOOL", ⟨"file:///a.xml", 0⟩, ⟨⟨7, 6⟩, ⟨7, 27⟩⟩⟩ : ID)
            (unknownEntryMessage "GABAGOOL"))
        = c5ctx.source_id_references.countP
            (fun r2 => idMatches (⟨"GABAGOOL", ⟨"file:///a.xml", 0⟩, ⟨⟨7, 6⟩, ⟨7, 27⟩⟩⟩ : ID) r2)
      ∧ 1 ≤ (c5ctx.validateSourceIds ["TH_VILLAGE"] []).countP
          (diagAnchoredAt (⟨"GABAGOOL", ⟨"file:///a.xml", 0⟩, ⟨⟨7, 6⟩, ⟨7, 27⟩⟩⟩ : ID)
            (unknownEntryMessage "GABAGOOL"))) :=
  ⟨⟨by decide, by decide⟩,
    (c5_source_reference_check c5ctx ["TH_VILLAGE"]
      ⟨"GABAGOOL", ⟨"file:///a.xml", 0⟩, ⟨⟨7, 6⟩, ⟨7, 27⟩⟩⟩ (by decide)).2 (by decide)⟩

theorem foldl_append_flatten {α β : Type} (g : α → List β) (l : List α) (acc : List β) :
    l.foldl (fun a f => a ++ g f) acc = acc ++ (l.map g).flatten := by
  induction l generalizing acc with
  | nil => simp
  | cons x t ih => simp [ih]

theorem mem_customCuriosities (files : List SystemFileView) (v : String) :
    v ∈ customCuriosities files ↔ ∃ f ∈ files, v ∈ fileCuriosities f := by
  unfold customCuriosities
  rw [foldl_append_flatten]
  simp only [List.nil_append, List.mem_flatten, List.mem_map]
  constructor
  · rintro ⟨l, ⟨f, hf, rfl⟩, hv⟩
    exact ⟨f, hf, hv⟩
  · rintro ⟨f, hf, hv⟩
    exact ⟨fileCuriosities f, ⟨f, hf, rfl⟩, hv⟩

/-- C4: a curiosity reference whose value is in the fixed built-in list
or declared as a `curiosities[].id` in any secondary-config document
yields no diagnostic; a reference outside that union yields exactly one
error diagnostic per occurrence, anchored at the reference, with the
message advising the author to declare the curiosity. -/
theorem c4_curiosity_reference_check (ctx : ShipLogContext)
    (files : List SystemFileView) (r : ID) (hr : r ∈ ctx.curiosity_references) :
    ((r.value ∈ knownCuriosities ∨ ∃ f ∈ files, r.value ∈ fileCuriosities f) →
      (ctx.validateCuriosityReferences files []).countP
          (diagAnchoredAt r (curiosityMessage r.value)) = 0)
    ∧ (¬ (r.value ∈ knownCuriosities ∨ ∃ f ∈ files, r.value ∈ fileCuriosities f) →
      (ctx.validateCuriosityReferences files []).countP
            (diagAnchoredAt r (curiosityMessage r.value))
          = ctx.curiosity_references.countP (fun r2 => idMatches r r2)
        ∧ 1 ≤ (ctx.validateCuriosityReferences files []).countP
            (diagAnchoredAt r (curiosityMessage r.value)))
    ∧ (∀ e ∈ ctx.validateCuriosityReferences files [], e.snd.severity = some 1) := by
  have hcp : (ctx.validateCuriosityReferences files []).countP
        (diagAnchoredAt r (curiosityMessage r.value))
      = ctx.curiosity_references.countP
          (fun r2 => idMatches r r2 &&
            (!(knownCuriosities.contains r2.value) &&
              !((customCuriosities files).contains r2.value))) := by
    rw [validateCuriosityReferences_eq]
    simp only [List.nil_append]
    rw [List.countP_map, List.countP_filter]
    apply List.countP_congr
    intro r2 _
    have hco : (diagAnchoredAt r (curiosityMessage r.value) ∘ mkCuriosityDiag) r2
        = idMatches r r2 := diagAnchoredAt_mkCuriosityDiag r r2
    rw [hco]
  refine ⟨?_, ?_, ?_⟩
  · intro hres
    rw [hcp]
    simp only [List.countP_eq_zero]
    intro r2 _ hcontra
    simp only [Bool.and_eq_true] at hcontra
    obtain ⟨hm, hb1, hb2⟩ := hcontra
    have hval : r2.value = r.value := idMatches_value hm
    rcases hres with hknown | hdecl
    · have hmem : r2.value ∈ knownCuriosities := by
        rw [hval]
        exact hknown
      simp [hmem] at hb1
    · have hmem : r2.value ∈ customCuriosities files := by
        rw [hval]
        exact (mem_customCuriosities files r.value).mpr hdecl
      simp [hmem] at hb2
  · intro hres
    rw [not_or] at hres
    obtain ⟨hA, hB⟩ := hres
    have hbadr : ∀ r2 : ID, r2.value = r.value →
        (!(knownCuriosities.contains r2.value) &&
          !((customCuriosities files).contains r2.value)) = true := by
      intro r2 hv
      have h1 : r2.value ∉ knownCuriosities := hv ▸ hA
      have h2 : r2.value ∉ customCuriosities files := by
        rw [hv]
        intro hmem
        exact hB ((mem_customCuriosities files r.value).mp hmem)
      simp [h1, h2]
    constructor
    · rw [hcp]
      apply List.countP_congr
      intro r2 _
      by_cases hm : idMatches r r2 = true
      · rw [hm, hbadr r2 (idMatches_value hm)]
        rfl
      · have hm2 : idMatches r r2 = false := by
          revert hm
          cases idMatches r r2 <;> simp
        simp [hm2]
    · rw [hcp]
      exact List.countP_pos_iff.mpr
        ⟨r, hr, by simp only [Bool.and_eq_true]; exact ⟨by simp [idMatches], by
          simpa using hbadr r rfl⟩⟩
  · intro e he
    rw [validateCuriosityReferences_eq] at he
    simp only [List.nil_append] at he
    obtain ⟨r2, _, rfl⟩ := List.mem_map.mp he
    rfl

/-- Concrete context with one curiosity reference `COOL_ROCK`, and one
secondary-config document declaring a different curiosity. -/
def c4ctx : ShipLogContext :=
  { ShipLogContext.init with
      curiosity_references := [⟨"COOL_ROCK", ⟨"file:///a.xml", 0⟩, ⟨⟨9, 6⟩, ⟨9, 30⟩⟩⟩] }

/-- Concrete secondary-config document declaring the curiosity
`EXAMPLE_ENTRY` under `curiosities[].id`. -/
def c4files : List SystemFileView :=
  [⟨⟨"file:///systems/test_system.json", 0⟩,
    some (Json.obj [("curiosities", Json.arr [Json.obj [("id", Json.str "EXAMPLE_ENTRY")]])])⟩]

/-- Witness for C4: the undeclared `COOL_ROCK` reference yields exactly
one advisory diagnostic anchored at it. -/
theorem c4_curiosity_reference_check_witness :
    ((⟨"COOL_ROCK", ⟨"file:///a.xml", 0⟩, ⟨⟨9, 6⟩, ⟨9, 30⟩⟩⟩ : ID) ∈ c4ctx.curiosity_references
      ∧ ¬ ((⟨"COOL_ROCK", ⟨"file:///a.xml", 0⟩, ⟨⟨9, 6⟩, ⟨9, 30⟩⟩⟩ : ID).value ∈ knownCuriosities
          ∨ ∃ f ∈ c4files,
              (⟨"COOL_ROCK", ⟨"file:///a.xml", 0⟩, ⟨⟨9, 6⟩, ⟨9, 30⟩⟩⟩ : ID).value
                ∈ fileCuriosities f))
    ∧ ((c4ctx.validateCuriosityReferences c4files []).countP
          (diagAnchoredAt (⟨"COOL_ROCK", ⟨"file:///a.xml", 0⟩, ⟨⟨9, 6⟩, ⟨9, 30⟩⟩⟩ : ID)
            (curiosityMessage "COOL_ROCK"))
        = c4ctx.curiosity_references.countP
            (fun r2 => idMatches (⟨"COOL_ROCK", ⟨"file:///a.xml", 0⟩, ⟨⟨9, 6⟩, ⟨9, 30⟩⟩⟩ : ID) r2)
      ∧ 1 ≤ (c4ctx.validateCuriosityReferences c4files []).countP
          (diagAnchoredAt (⟨"COOL_ROCK", ⟨"file:///a.xml", 0⟩, ⟨⟨9, 6⟩, ⟨9, 30⟩⟩⟩ : ID)
            (curiosityMessage "COOL_ROCK"))) :=
  ⟨⟨by decide, by
      rw [not_or]
      refine ⟨by decide, ?_⟩
      rintro ⟨f, hf, hv⟩
      revert hv
      have : f = c4files.head (by simp [c4files]) := by
        rcases List.mem_cons.mp hf with h | h
        · simpa [c4files] using h
        · simp [c4files] at h
      rw [this]
      decide⟩,
    ((c4_curiosity_reference_check c4ctx c4files
      ⟨"COOL_ROCK", ⟨"file:///a.xml", 0⟩, ⟨⟨9, 6⟩, ⟨9, 30⟩⟩⟩ (by decide)).2.1 (by
        rw [not_or]
        refine ⟨by decide, ?_⟩
        rintro ⟨f, hf, hv⟩
        revert hv
        have : f = c4files.head (by simp [c4files]) := by
          rcases List.mem_cons.mp hf with h | h
          · simpa [c4files] using h
          · simp [c4files] at h
        rw [this]
        decide))⟩

/-- C7: `get_entries_for_system` is `none` exactly when the system name
is not a key of the system-to-relative-path map; otherwise it returns
precisely the entries of the entry map whose astro-object id is among
the ids resolved from the system's relative paths or the fixed vanilla
astro-object list. -/
theorem c7_entries_for_system (ctx : ShipLogContext) (system : String) :
    (ctx.getEntriesForSystem system = none
      ↔ ctx.system_to_relative_path.get? system = none)
    ∧ (∀ paths, ctx.system_to_relative_path.get? system = some paths →
        ∃ res, ctx.getEntriesForSystem system = some res ∧
          ∀ e : ShipLogEntry, e ∈ res ↔
            ((∃ k, (k, e) ∈ ctx.entries) ∧
              (e.astro_object
                  ∈ paths.filterMap (fun path => ctx.relative_to_astro_object.get? path)
                ∨ e.astro_object ∈ VANILLA_ASTRO_OBJECTS))) := by
  constructor
  · cases hg : ctx.system_to_relative_path.get? system <;>
      simp [ShipLogContext.getEntriesForSystem, hg]
  · intro paths hp
    refine ⟨ctx.entries.filterMap
        (fun kv => if ((paths.filterMap (fun path => ctx.relative_to_astro_object.get? path))
            ++ VANILLA_ASTRO_OBJECTS).contains kv.snd.astro_object then some kv.snd else none),
      ?_, ?_⟩
    · unfold ShipLogContext.getEntriesForSystem
      rw [hp]
    intro e
    rw [List.mem_filterMap]
    constructor
    · rintro ⟨⟨k, v⟩, hkv, hif⟩
      by_cases hc : ((paths.filterMap (fun path => ctx.relative_to_astro_object.get? path))
          ++ VANILLA_ASTRO_OBJECTS).contains v.astro_object
      · rw [if_pos hc] at hif
        injection hif with hv
        subst hv
        have hor : v.astro_object
            ∈ (paths.filterMap (fun path => ctx.relative_to_astro_object.get? path))
              ++ VANILLA_ASTRO_OBJECTS := by
          simpa using hc
        exact ⟨⟨k, hkv⟩, List.mem_append.mp hor⟩
      · rw [if_neg hc] at hif
        exact absurd hif (by simp)
    · rintro ⟨⟨k, hk⟩, hao⟩
      refine ⟨(k, e), hk, ?_⟩
      have hc : ((paths.filterMap (fun path => ctx.relative_to_astro_object.get? path))
          ++ VANILLA_ASTRO_OBJECTS).contains e.astro_object = true := by
        have hm : e.astro_object
            ∈ (paths.filterMap (fun path => ctx.relative_to_astro_object.get? path))
              ++ VANILLA_ASTRO_OBJECTS := List.mem_append.mpr hao
        simpa using hm
      rw [if_pos hc]

/-- Concrete context for the entries-for-system query: one mapped
system, one resolved astro object, one matching and one non-matching
entry. -/
def c7ctx : ShipLogContext :=
  { ShipLogContext.init with
      system_to_relative_path := [("TestSystem", ["planets/xml/p.xml"])]
      relative_to_astro_object := [("planets/xml/p.xml", "AO1")]
      entries :=
        [("E1", { ShipLogEntry.init with id := "E1", astro_object := "AO1" }),
         ("E2", { ShipLogEntry.init with id := "E2", astro_object := "ELSEWHERE" })] }

/-- Witness for C7 at a concrete context: the mapped system returns a
result characterised by the astro-object union, and an unmapped system
name returns the absent result. -/
theorem c7_entries_for_system_witness :
    (c7ctx.system_to_relative_path.get? "TestSystem" = some ["planets/xml/p.xml"]
      ∧ (∃ res, c7ctx.getEntriesForSystem "TestSystem" = some res ∧
          ∀ e : ShipLogEntry, e ∈ res ↔
            ((∃ k, (k, e) ∈ c7ctx.entries) ∧
              (e.astro_object
                  ∈ (["planets/xml/p.xml"] : List String).filterMap
                      (fun path => c7ctx.relative_to_astro_object.get? path)
                ∨ e.astro_object ∈ VANILLA_ASTRO_OBJECTS))))
    ∧ c7ctx.getEntriesForSystem "UnknownSystem" = none :=
  ⟨⟨by decide,
    (c7_entries_for_system c7ctx "TestSystem").2 ["planets/xml/p.xml"] (by decide)⟩,
    (c7_entries_for_system c7ctx "UnknownSystem").1.mpr (by decide)⟩

/-- The match condition of `check_file_add`: same uri and a strictly
greater incoming version. -/
def openMatch (id : VersionedTextDocumentIdentifier) (f : ProjectFile) : Prop :=
  id.uri = f.id.uri ∧ f.id.version < id.version

instance (id : VersionedTextDocumentIdentifier) : DecidablePred (openMatch id) :=
  fun f => by
    unfold openMatch
    infer_instance

/-- The in-place replacement `check_file_add` performs on a match. -/
def openUpdate (id : VersionedTextDocumentIdentifier) (contents : String)
    (f : ProjectFile) : ProjectFile :=
  { f with id := id, contents := contents }

/-- Replace the first element satisfying `q` by its image under `g`. -/
def updateFirst {α : Type} (q : α → Prop) [DecidablePred q] (g : α → α) :
    List α → List α
  | [] => []
  | a :: t => if q a then g a :: t else a :: updateFirst q g t

theorem checkFileAdd_fst (id : VersionedTextDocumentIdentifier) (c : String)
    (l : List ProjectFile) :
    (Project.checkFileAdd id c l).fst = updateFirst (openMatch id) (openUpdate id c) l := by
  induction l with
  | nil => rfl
  | cons f t ih =>
    by_cases h : id.uri = f.id.uri ∧ f.id.version < id.version
    · simp [Project.checkFileAdd, updateFirst, openMatch, openUpdate, h]
    · simp [Project.checkFileAdd, updateFirst, openMatch, openUpdate, h, ih]

theorem checkFileAdd_snd (id : VersionedTextDocumentIdentifier) (c : String)
    (l : List ProjectFile) :
    (Project.checkFileAdd id c l).snd = decide (∃ f ∈ l, openMatch id f) := by
  induction l with
  | nil => simp [Project.checkFileAdd]
  | cons f t ih =>
    by_cases h : id.uri = f.id.uri ∧ f.id.version < id.version
    · have hex : ∃ x ∈ f :: t, openMatch id x := ⟨f, by simp, h⟩
      simp [Project.checkFileAdd, h, hex]
      exact Or.inl h
    · have hq : ¬ openMatch id f := by simpa [openMatch] using h
      have hiff : (∃ x ∈ f :: t, openMatch id x) ↔ (∃ x ∈ t, openMatch id x) := by
        constructor
        · rintro ⟨x, hx, hqx⟩
          rcases List.mem_cons.mp hx with rfl | hx2
          · exact absurd hqx hq
          · exact ⟨x, hx2, hqx⟩
        · rintro ⟨x, hx, hqx⟩
          exact ⟨x, by simp [hx], hqx⟩
      calc (Project.checkFileAdd id c (f :: t)).snd
          = (Project.checkFileAdd id c t).snd := by simp [Project.checkFileAdd, h]
        _ = decide (∃ x ∈ t, openMatch id x) := ih
        _ = decide (∃ x ∈ f :: t, openMatch id x) := (decide_eq_decide.mpr hiff).symm

theorem updateFirst_eq_self {α : Type} (q : α → Prop) [DecidablePred q] (g : α → α)
    (l : List α) (h : ∀ a ∈ l, ¬ q a) : updateFirst q g l = l := by
  induction l with
  | nil => rfl
  | cons a t ih =>
    rw [updateFirst, if_neg (h a (by simp)), ih (fun x hx => h x (by simp [hx]))]

theorem updateFirst_append {α : Type} (q : α → Prop) [DecidablePred q] (g : α → α)
    (l₁ l₂ : List α) :
    updateFirst q g (l₁ ++ l₂)
      = if ∃ a ∈ l₁, q a then updateFirst q g l₁ ++ l₂
        else l₁ ++ updateFirst q g l₂ := by
  induction l₁ with
  | nil => simp
  | cons a t ih =>
    by_cases ha : q a
    · have hex : ∃ x ∈ a :: t, q x := ⟨a, by simp, ha⟩
      simp [updateFirst, ha, hex]
    · rw [List.cons_append, updateFirst, if_neg ha, ih, updateFirst, if_neg ha]
      by_cases ht : ∃ x ∈ t, q x
      · have hex : ∃ x ∈ a :: t, q x := by
          obtain ⟨x, hx, hqx⟩ := ht
          exact ⟨x, by simp [hx], hqx⟩
        rw [if_pos ht, if_pos hex, List.cons_append]
      · have hex : ¬ ∃ x ∈ a :: t, q x := by
          rintro ⟨x, hx, hqx⟩
          rcases List.mem_cons.mp hx with rfl | hx2
          · exact ha hqx
          · exact ht ⟨x, hx2, hqx⟩
        rw [if_neg ht, if_neg hex, List.cons_append]

theorem openFile_searchFiles (p : Project) (id : VersionedTextDocumentIdentifier)
    (c : String) :
    (p.openFile id c).searchFiles
      = updateFirst (openMatch id) (openUpdate id c) p.searchFiles := by
  unfold Project.openFile Project.searchFiles
  by_cases h1 : ∃ f ∈ p.dialogue_files, openMatch id f
  · have hs1 : (Project.checkFileAdd id c p.dialogue_files).snd = true := by
      rw [checkFileAdd_snd]
      exact decide_eq_true h1
    rw [updateFirst_append, if_pos h1]
    simp [hs1, checkFileAdd_fst]
  · have hs1 : (Project.checkFileAdd id c p.dialogue_files).snd = false := by
      rw [checkFileAdd_snd]
      exact decide_eq_false h1
    rw [updateFirst_append, if_neg h1]
    by_cases h2 : ∃ f ∈ p.ship_log_files, openMatch id f
    · have hs2 : (Project.checkFileAdd id c p.ship_log_files).snd = true := by
        rw [checkFileAdd_snd]
        exact decide_eq_true h2
      rw [updateFirst_append, if_pos h2]
      simp [hs1, hs2, checkFileAdd_fst, updateFirst_eq_self (openMatch id) _ _
        (fun a ha => fun hq => h1 ⟨a, ha, hq⟩)]
    · have hs2 : (Project.checkFileAdd id c p.ship_log_files).snd = false := by
        rw [checkFileAdd_snd]
        exact decide_eq_false h2
      rw [updateFirst_append, if_neg h2]
      by_cases h3 : ∃ f ∈ p.system_files, openMatch id f
      · have hs3 : (Project.checkFileAdd id c p.system_files).snd = true := by
          rw [checkFileAdd_snd]
          exact decide_eq_true h3
        rw [updateFirst_append, if_pos h3]
        simp [hs1, hs2, hs3, checkFileAdd_fst,
          updateFirst_eq_self (openMatch id) _ _ (fun a ha hq => h1 ⟨a, ha, hq⟩),
          updateFirst_eq_self (openMatch id) _ _ (fun a ha hq => h2 ⟨a, ha, hq⟩)]
      · have hs3 : (Project.checkFileAdd id c p.system_files).snd = false := by
          rw [checkFileAdd_snd]
          exact decide_eq_false h3
        rw [updateFirst_append, if_neg h3]
        by_cases h4 : ∃ f ∈ p.planet_files, openMatch id f
        · have hs4 : (Project.checkFileAdd id c p.planet_files).snd = true := by
            rw [checkFileAdd_snd]
            exact decide_eq_true h4
          rw [updateFirst_append, if_pos h4]
          simp [hs1, hs2, hs3, hs4, checkFileAdd_fst,
            updateFirst_eq_self (openMatch id) _ _ (fun a ha hq => h1 ⟨a, ha, hq⟩),
            updateFirst_eq_self (openMatch id) _ _ (fun a ha hq => h2 ⟨a, ha, hq⟩),
            updateFirst_eq_self (openMatch id) _ _ (fun a ha hq => h3 ⟨a, ha, hq⟩)]
        · have hs4 : (Project.checkFileAdd id c p.planet_files).snd = false := by
            rw [checkFileAdd_snd]
            exact decide_eq_false h4
          rw [updateFirst_append, if_neg h4]
          simp [hs1, hs2, hs3, hs4, checkFileAdd_fst,
            updateFirst_eq_self (openMatch id) _ _ (fun a ha hq => h1 ⟨a, ha, hq⟩),
            updateFirst_eq_self (openMatch id) _ _ (fun a ha hq => h2 ⟨a, ha, hq⟩),
            updateFirst_eq_self (openMatch id) _ _ (fun a ha hq => h3 ⟨a, ha, hq⟩),
            updateFirst_eq_self (openMatch id) _ _ (fun a ha hq => h4 ⟨a, ha, hq⟩)]

theorem openFile_frame (p : Project) (id : VersionedTextDocumentIdentifier)
    (c : String) :
    (p.openFile id c).root_path = p.root_path
      ∧ (p.openFile id c).files_with_diagnostics = p.files_with_diagnostics := by
  unfold Project.openFile
  cases hs1 : (Project.checkFileAdd id c p.dialogue_files).snd
  · cases hs2 : (Project.checkFileAdd id c p.ship_log_files).snd
    · cases hs3 : (Project.checkFileAdd id c p.system_files).snd
      · cases hs4 : (Project.checkFileAdd id c p.planet_files).snd
        · simp [hs1, hs2, hs3, hs4]
        · simp [hs1, hs2, hs3, hs4]
      · simp [hs1, hs2, hs3]
    · simp [hs1, hs2]
  · simp [hs1]

theorem exists_first {α : Type} (q : α → Prop) [DecidablePred q] :
    ∀ l : List α, (∃ a ∈ l, q a) →
      ∃ l₁ x l₂, l = l₁ ++ x :: l₂ ∧ (∀ y ∈ l₁, ¬ q y) ∧ q x := by
  intro l
  induction l with
  | nil =>
    rintro ⟨x, hx, _⟩
    simp at hx
  | cons a t ih =>
    intro hex
    by_cases ha : q a
    · exact ⟨[], a, t, rfl, by simp, ha⟩
    · have hext : ∃ x ∈ t, q x := by
        obtain ⟨x, hx, hqx⟩ := hex
        rcases List.mem_cons.mp hx with rfl | hx2
        · exact absurd hqx ha
        · exact ⟨x, hx2, hqx⟩
      obtain ⟨l₁, x, l₂, heq, hl₁, hqx⟩ := ih hext
      refine ⟨a :: l₁, x, l₂, by rw [heq]; rfl, ?_, hqx⟩
      intro y hy
      rcases List.mem_cons.mp hy with rfl | hy2
      · exact ha
      · exact hl₁ y hy2

theorem updateFirst_split {α : Type} (q : α → Prop) [DecidablePred q] (g : α → α)
    (l₁ : List α) (x : α) (l₂ : List α)
    (hl₁ : ∀ y ∈ l₁, ¬ q y) (hx : q x) :
    updateFirst q g (l₁ ++ x :: l₂) = l₁ ++ g x :: l₂ := by
  rw [updateFirst_append, if_neg (by rintro ⟨y, hy, hqy⟩; exact hl₁ y hy hqy),
    updateFirst, if_pos hx]

theorem openFile_no_match (p : Project) (id : VersionedTextDocumentIdentifier)
    (c : String) (h : ∀ f ∈ p.searchFiles, ¬ openMatch id f) :
    p.openFile id c = p := by
  have hd : ∀ f ∈ p.dialogue_files, ¬ openMatch id f :=
    fun f hf => h f (by unfold Project.searchFiles; simp [hf])
  have hsl : ∀ f ∈ p.ship_log_files, ¬ openMatch id f :=
    fun f hf => h f (by unfold Project.searchFiles; simp [hf])
  have hsys : ∀ f ∈ p.system_files, ¬ openMatch id f :=
    fun f hf => h f (by unfold Project.searchFiles; simp [hf])
  have hpl : ∀ f ∈ p.planet_files, ¬ openMatch id f :=
    fun f hf => h f (by unfold Project.searchFiles; simp [hf])
  have htx : ∀ f ∈ p.text_files, ¬ openMatch id f :=
    fun f hf => h f (by unfold Project.searchFiles; simp [hf])
  have hs1 : (Project.checkFileAdd id c p.dialogue_files).snd = false := by
    rw [checkFileAdd_snd]
    exact decide_eq_false (by rintro ⟨f, hf, hq⟩; exact hd f hf hq)
  have hs2 : (Project.checkFileAdd id c p.ship_log_files).snd = false := by
    rw [checkFileAdd_snd]
    exact decide_eq_false (by rintro ⟨f, hf, hq⟩; exact hsl f hf hq)
  have hs3 : (Project.checkFileAdd id c p.system_files).snd = false := by
    rw [checkFileAdd_snd]
    exact decide_eq_false (by rintro ⟨f, hf, hq⟩; exact hsys f hf hq)
  have hs4 : (Project.checkFileAdd id c p.planet_files).snd = false := by
    rw [checkFileAdd_snd]
    exact decide_eq_false (by rintro ⟨f, hf, hq⟩; exact hpl f hf hq)
  unfold Project.openFile
  simp [hs1, hs2, hs3, hs4, checkFileAdd_fst,
    updateFirst_eq_self (openMatch id) _ _ hd,
    updateFirst_eq_self (openMatch id) _ _ hsl,
    updateFirst_eq_self (openMatch id) _ _ hsys,
    updateFirst_eq_self (openMatch id) _ _ hpl,
    updateFirst_eq_self (openMatch id) _ _ htx]

/-- C3: `open_file` leaves the store unchanged iff no tracked file has
the incoming uri together with a strictly smaller version; the root
path and diagnostic bookkeeping are never touched; and when a match
exists, exactly the first matching tracked file in the fixed search
order (dialogue, ship-log, system, planet, text) has its identifier
and contents replaced while every other tracked file keeps its place
and state. -/
theorem c3_open_file (p : Project) (id : VersionedTextDocumentIdentifier) (c : String) :
    (p.openFile id c = p ↔ ¬ ∃ f ∈ p.searchFiles, openMatch id f)
    ∧ (p.openFile id c).root_path = p.root_path
    ∧ (p.openFile id c).files_with_diagnostics = p.files_with_diagnostics
    ∧ ∀ l₁ f l₂, p.searchFiles = l₁ ++ f :: l₂ → (∀ y ∈ l₁, ¬ openMatch id y) →
        openMatch id f →
        (p.openFile id c).searchFiles = l₁ ++ openUpdate id c f :: l₂ := by
  refine ⟨⟨?_, ?_⟩, (openFile_frame p id c).1, (openFile_frame p id c).2, ?_⟩
  · intro heq hex
    obtain ⟨l₁, f, l₂, hsplit, hl₁, hf⟩ := exists_first (openMatch id) _ hex
    have h1 : (p.openFile id c).searchFiles = l₁ ++ openUpdate id c f :: l₂ := by
      rw [openFile_searchFiles, hsplit, updateFirst_split _ _ _ _ _ hl₁ hf]
    rw [heq, hsplit] at h1
    have hcl := List.append_cancel_left h1
    injection hcl with hfe _
    have hv := hf.2
    rw [hfe] at hv
    simp [openUpdate] at hv
  · intro hnone
    exact openFile_no_match p id c (fun f hf hq => hnone ⟨f, hf, hq⟩)
  · intro l₁ f l₂ hsplit hl₁ hf
    rw [openFile_searchFiles, hsplit, updateFirst_split _ _ _ _ _ hl₁ hf]

/-- Concrete store with one tracked ship-log file at version 0. -/
def c3project : Project :=
  { root_path := "/proj"
    planet_files := []
    system_files := []
    ship_log_files :=
      [⟨⟨"file:///proj/planets/xml/a.xml", 0⟩, "/proj/planets/xml/a.xml", "old"⟩]
    dialogue_files := []
    text_files := []
    files_with_diagnostics := [] }

/-- Witness for C3: an edit with a strictly greater version replaces
exactly the tracked ship-log file's identifier and contents. -/
theorem c3_open_file_witness :
    (c3project.searchFiles
        = [] ++ (⟨⟨"file:///proj/planets/xml/a.xml", 0⟩,
            "/proj/planets/xml/a.xml", "old"⟩ : ProjectFile) :: []
      ∧ openMatch ⟨"file:///proj/planets/xml/a.xml", 2⟩
          ⟨⟨"file:///proj/planets/xml/a.xml", 0⟩, "/proj/planets/xml/a.xml", "old"⟩)
    ∧ (c3project.openFile ⟨"file:///proj/planets/xml/a.xml", 2⟩ "new").searchFiles
        = [] ++ openUpdate ⟨"file:///proj/planets/xml/a.xml", 2⟩ "new"
            ⟨⟨"file:///proj/planets/xml/a.xml", 0⟩, "/proj/planets/xml/a.xml", "old"⟩ :: [] :=
  ⟨⟨by decide, by decide⟩,
    (c3_open_file c3project ⟨"file:///proj/planets/xml/a.xml", 2⟩ "new").2.2.2
      [] ⟨⟨"file:///proj/planets/xml/a.xml", 0⟩, "/proj/planets/xml/a.xml", "old"⟩ []
      (by decide) (by decide) (by decide)⟩

theorem dedupAfter_subset : ∀ (l : List Url) (prev : Url), ∀ x ∈ dedupAfter prev l, x ∈ l := by
  intro l
  induction l with
  | nil =>
    intro prev x hx
    simp [dedupAfter] at hx
  | cons b t ih =>
    intro prev x hx
    rw [dedupAfter] at hx
    by_cases h : prev = b
    · rw [if_pos h] at hx
      exact List.mem_cons_of_mem _ (ih prev x hx)
    · rw [if_neg h] at hx
      rcases List.mem_cons.mp hx with rfl | hx2
      · exact List.mem_cons_self _ _
      · exact List.mem_cons_of_mem _ (ih b x hx2)

theorem dedupConsecutive_subset : ∀ (l : List Url), ∀ x ∈ dedupConsecutive l, x ∈ l := by
  intro l
  cases l with
  | nil => simp [dedupConsecutive]
  | cons a t =>
    intro x hx
    rw [dedupConsecutive] at hx
    rcases List.mem_cons.mp hx with rfl | hx2
    · exact List.mem_cons_self _ _
    · exact List.mem_cons_of_mem _ (dedupAfter_subset t a x hx2)

theorem onChange_fst (validators : List ValidatorImpl) (changedPaths : List Url)
    (p : Project) :
    (onChange validators changedPaths p).fst
      = emitDiagnostics (collectChangedErrors validators changedPaths p)
        ++ ((p.iterAll.filter
            (fun f => ¬ (dedupConsecutive (sortUris
              ((collectChangedErrors validators changedPaths p).map
                (fun e => e.fst.uri)))).contains f.id.uri)).map
          (fun f =>
            { uri := f.id.uri
              version :=
                (p.files_with_diagnostics.find? (fun g => g.uri == f.id.uri)).map
                  (fun g => g.version)
              diagnostics := [] })) := rfl

theorem onChange_clears (validators : List ValidatorImpl) (changedPaths : List Url)
    (p : Project) (f : ProjectFile) (hf : f ∈ p.iterAll)
    (hclean : ∀ d ∈ collectChangedErrors validators changedPaths p,
      d.fst.uri ≠ f.id.uri) :
    ∃ e ∈ (onChange validators changedPaths p).fst,
      e.uri = f.id.uri ∧ e.diagnostics = [] := by
  have hnotin : ¬ (dedupConsecutive (sortUris
      ((collectChangedErrors validators changedPaths p).map
        (fun e => e.fst.uri)))).contains f.id.uri := by
    intro hcont
    have hmem : f.id.uri ∈ dedupConsecutive (sortUris
        ((collectChangedErrors validators changedPaths p).map (fun e => e.fst.uri))) := by
      simpa using hcont
    have hmem2 := dedupConsecutive_subset _ _ hmem
    have hmem3 : f.id.uri ∈ (collectChangedErrors validators changedPaths p).map
        (fun e => e.fst.uri) :=
      (List.perm_insertionSort _ _).mem_iff.mp hmem2
    obtain ⟨d, hd, hde⟩ := List.mem_map.mp hmem3
    exact hclean d hd hde
  rw [onChange_fst]
  refine ⟨{ uri := f.id.uri
            version :=
              (p.files_with_diagnostics.find? (fun g => g.uri == f.id.uri)).map
                (fun g => g.version)
            diagnostics := [] }, ?_, rfl, rfl⟩
  apply List.mem_append.mpr
  right
  apply List.mem_map_of_mem
  exact List.mem_filter.mpr ⟨hf, decide_eq_true hnotin⟩

/-- C8: every `on_change` run emits an explicit empty diagnostic list
for every tracked file whose uri carries no diagnostic in the newly
collected set — in particular a file whose earlier diagnostics are now
absent receives a clearing emission. -/
theorem c8_on_change_clearing (validators : List ValidatorImpl)
    (changedPaths : List Url) (p : Project) (f : ProjectFile)
    (hf : f ∈ p.iterAll)
    (hclean : ∀ d ∈ collectChangedErrors validators changedPaths p,
      d.fst.uri ≠ f.id.uri) :
    ∃ e ∈ (onChange validators changedPaths p).fst,
      e.uri = f.id.uri ∧ e.diagnostics = [] :=
  onChange_clears validators changedPaths p f hf hclean

/-- Concrete store with one tracked ship-log file that previously held
a diagnostic. -/
def c8project : Project :=
  { root_path := "/proj"
    planet_files := []
    system_files := []
    ship_log_files := [⟨⟨"file:///proj/x.xml", 0⟩, "/proj/x.xml", "c"⟩]
    dialogue_files := []
    text_files := []
    files_with_diagnostics := [⟨"file:///proj/x.xml", 1⟩] }

/-- The registered validator pair with validation bodies that now
report nothing. -/
def c8validators : List ValidatorImpl :=
  MainValidator.new (fun _ => []) (fun _ => [])

/-- Witness for C8: with no newly collected diagnostics, the tracked
file receives a clearing emission. -/
theorem c8_on_change_clearing_witness :
    ((⟨⟨"file:///proj/x.xml", 0⟩, "/proj/x.xml", "c"⟩ : ProjectFile) ∈ c8project.iterAll
      ∧ ∀ d ∈ collectChangedErrors c8validators ["file:///proj/other.json"] c8project,
          d.fst.uri ≠ (⟨⟨"file:///proj/x.xml", 0⟩, "/proj/x.xml", "c"⟩ : ProjectFile).id.uri)
    ∧ ∃ e ∈ (onChange c8validators ["file:///proj/other.json"] c8project).fst,
        e.uri = (⟨⟨"file:///proj/x.xml", 0⟩, "/proj/x.xml", "c"⟩ : ProjectFile).id.uri
          ∧ e.diagnostics = [] :=
  ⟨⟨by decide, by decide⟩,
    c8_on_change_clearing c8validators ["file:///proj/other.json"] c8project
      ⟨⟨"file:///proj/x.xml", 0⟩, "/proj/x.xml", "c"⟩ (by decide) (by decide)⟩

/-- C10 (implicit): when no changed identifier is a tracked ship-log or
system file uri, the ship-log validator is not invalidated, the newly
collected set holds only the file-path validator's diagnostics
(whatever the ship-log validator would have reported), and every
tracked file without a file-path diagnostic receives a clearing
emission even if cross-reference issues persist in the project. -/
theorem c10_skipped_validator_clears (slV fpV : Project → ErrorSet)
    (changedPaths : List Url) (p : Project)
    (hnone : ∀ f ∈ p.ship_log_files ++ p.system_files, f.id.uri ∉ changedPaths) :
    ShipLogValidator.shouldInvalidate changedPaths p = false
    ∧ collectChangedErrors (MainValidator.new slV fpV) changedPaths p = fpV p
    ∧ ∀ f ∈ p.iterAll, (∀ d ∈ fpV p, d.fst.uri ≠ f.id.uri) →
        ∃ e ∈ (onChange (MainValidator.new slV fpV) changedPaths p).fst,
          e.uri = f.id.uri ∧ e.diagnostics = [] := by
  have hsi : ShipLogValidator.shouldInvalidate changedPaths p = false := by
    unfold ShipLogValidator.shouldInvalidate
    apply List.any_eq_false.mpr
    intro f hf
    simpa using hnone f hf
  have hcoll : collectChangedErrors (MainValidator.new slV fpV) changedPaths p = fpV p := by
    unfold collectChangedErrors MainValidator.new
    simp [hsi, FilePathValidator.shouldInvalidate]
  refine ⟨hsi, hcoll, ?_⟩
  intro f hf hcl
  apply onChange_clears _ _ _ _ hf
  rw [hcoll]
  exact hcl

/-- Concrete store for C10: one tracked ship-log file. -/
def c10project : Project :=
  { root_path := "/proj"
    planet_files := []
    system_files := []
    ship_log_files := [⟨⟨"file:///proj/x.xml", 0⟩, "/proj/x.xml", "c"⟩]
    dialogue_files := []
    text_files := []
    files_with_diagnostics := [⟨"file:///proj/x.xml", 1⟩] }

/-- A ship-log validation body that still reports a diagnostic for the
tracked file (its cross-reference issue persists). -/
def c10shipLogValidate : Project → ErrorSet :=
  fun _ =>
    [(⟨"file:///proj/x.xml", 1⟩,
      { range := ⟨⟨1, 1⟩, ⟨1, 2⟩⟩, severity := some 1
        code := getErrorCode shiplogDuplicateId
        source := some errorSource
        message := dupMessage "Entry" "X" })]

/-- Witness for C10: a change that touches neither ship-log nor system
files clears the tracked file's diagnostics even though the (skipped)
ship-log validator would still report one for it. -/
theorem c10_skipped_validator_clears_witness :
    ((∀ f ∈ c10project.ship_log_files ++ c10project.system_files,
        f.id.uri ∉ (["file:///proj/other.txt"] : List Url))
      ∧ (⟨⟨"file:///proj/x.xml", 0⟩, "/proj/x.xml", "c"⟩ : ProjectFile) ∈ c10project.iterAll
      ∧ (∀ d ∈ (fun (_ : Project) => ([] : ErrorSet)) c10project,
          d.fst.uri ≠ (⟨⟨"file:///proj/x.xml", 0⟩, "/proj/x.xml", "c"⟩ : ProjectFile).id.uri)
      ∧ c10shipLogValidate c10project ≠ [])
    ∧ ∃ e ∈ (onChange (MainValidator.new c10shipLogValidate (fun _ => []))
          ["file:///proj/other.txt"] c10project).fst,
        e.uri = (⟨⟨"file:///proj/x.xml", 0⟩, "/proj/x.xml", "c"⟩ : ProjectFile).id.uri
          ∧ e.diagnostics = [] :=
  ⟨⟨by decide, by decide, by decide, by decide⟩,
    (c10_skipped_validator_clears c10shipLogValidate (fun _ => [])
        ["file:///proj/other.txt"] c10project (by decide)).2.2
      ⟨⟨"file:///proj/x.xml", 0⟩, "/proj/x.xml", "c"⟩ (by decide) (by decide)⟩

/-- C9: re-building the context and re-running `validate` on the same
unchanged project yields an identical diagnostic list — same length,
messages, ranges, codes and owning files, in the same order. The
embedded validator is a pure function of the project (the source's
`validate` takes `&self` and rebuilds all state from the store), so no
diagnostics can accumulate between runs. -/
theorem c9_validate_idempotent (b : Baseline) (p : EngineProject) :
    (ShipLogContext.fromProject b p).validate b p
        = (ShipLogContext.fromProject b p).validate b p
    ∧ ((ShipLogContext.fromProject b p).validate b p).length
        = ((ShipLogContext.fromProject b p).validate b p).length
    ∧ ((ShipLogContext.fromProject b p).validate b p).map (fun e => e.snd.message)
        = ((ShipLogContext.fromProject b p).validate b p).map (fun e => e.snd.message)
    ∧ ((ShipLogContext.fromProject b p).validate b p).map (fun e => e.snd.range)
        = ((ShipLogContext.fromProject b p).validate b p).map (fun e => e.snd.range)
    ∧ ((ShipLogContext.fromProject b p).validate b p).map (fun e => e.snd.code)
        = ((ShipLogContext.fromProject b p).validate b p).map (fun e => e.snd.code)
    ∧ ((ShipLogContext.fromProject b p).validate b p).map (fun e => e.fst)
        = ((ShipLogContext.fromProject b p).validate b p).map (fun e => e.fst) :=
  ⟨rfl, rfl, rfl, rfl, rfl, rfl⟩
